import Mathlib

/-!
Verification development for the OpenViking storage core.

This file contains a shallow embedding of the parts of the OpenViking
repository that the verified properties are about:

* the filter-expression AST and its compilation to the wire DSL
  (`openviking/storage/expr.py`, `openviking/storage/vectordb_adapters/base.py`),
* the single-collection vector-index backend
  (`openviking/storage/viking_vector_index_backend.py`),
* the `VikingFS` facade: URI/path mapping, the access gate, the relation
  table, and the vector-index synchronisation performed by `rm`/`mv`
  (`openviking/storage/viking_fs.py`),
* the text-embedding queue handler
  (`openviking/storage/collection_schemas.py`),
* the best-first loop of the hierarchical retriever
  (`openviking/retrieve/hierarchical_retriever.py`).

Machine floats of the source are modelled with `Rat`; Python dict fields
that may be absent are modelled with `Option` or with the empty string
(Python `dict.get` returns `None`, which the source treats as falsy, the
same way it treats `""`).  Library calls with no pure definition in the
repository (`uuid.uuid4`, `hashlib.md5`, `hashlib.sha256`) are passed in
as explicit function or string parameters.  Parts of the repository that
the claims depend on but whose sources are not available (the storage
collection layer, the queue counter surface, the identity types) are
modelled from the specification; each such definition carries a doc
comment starting with `Modelled from the spec:`.
-/

namespace OpenViking

/-! ## Character-list string helpers

Python string primitives (`split("/")`, slicing, `startswith`) are
modelled over `String.data` so that they compute by kernel reduction and
admit list-level reasoning. -/

/-- Python `p == s[:len(p)]`: `p` is a character-wise prefix of `s`. -/
def chPfx : List Char → List Char → Bool
  | [], _ => true
  | _ :: _, [] => false
  | a :: as, b :: bs => a == b && chPfx as bs

/-- Python `s.startswith(p)`. -/
def strStarts (s p : String) : Bool := chPfx p.data s.data

/-- Python `s[n:]` (drop the first `n` characters). -/
def strDrop (s : String) (n : Nat) : String := String.mk (s.data.drop n)

/-- Split a character list at `/` (Python `str.split("/")` on the chunk level). -/
def splitSlashAux : List Char → List Char → List (List Char)
  | [], acc => [acc.reverse]
  | c :: cs, acc => if c = '/' then acc.reverse :: splitSlashAux cs [] else splitSlashAux cs (c :: acc)

/-- Python `s.split("/")`. -/
def splitSlash (s : String) : List String := (splitSlashAux s.data []).map String.mk

/-- Python `"/".join(parts)`. -/
def joinSlash : List String → String
  | [] => ""
  | [x] => x
  | x :: y :: xs => x ++ "/" ++ joinSlash (y :: xs)

/-- Python `s.strip("/")`: remove leading and trailing `/` characters. -/
def stripSlashes (s : String) : String :=
  String.mk (((s.data.dropWhile (· = '/')).reverse.dropWhile (· = '/')).reverse)

/-- True when the string ends with the character `/`. -/
def endsSlash (s : String) : Bool := s.data.getLast? == some '/'

/-! ## Filter expression AST (`openviking/storage/expr.py`)

The AST is the closed sum of dataclasses `And, Or, Eq, In, Range,
Contains, TimeRange, RawDSL`.  Scalar filter values are strings or
integers in every call site the claims touch, so the `Any`-typed Python
values are modelled by `FValue`.  Compiled filters are Python dicts of
the fixed shapes emitted by `CollectionAdapter._compile_filter`; they are
modelled by `Dsl`, with `Option Dsl` standing for a possibly-empty dict
(`none` is the empty dict `{}`). -/

inductive FValue
  | s (v : String)
  | i (v : Int)
deriving DecidableEq, Repr

inductive Dsl
  | must (field : String) (conds : List FValue)
  | andD (conds : List Dsl)
  | orD (conds : List Dsl)
  | rangeD (field : String) (gte gt lte lt : Option FValue)
  | containsD (field : String) (sub : String)
deriving Repr

inductive FilterExpr
  | fAnd (conds : List FilterExpr)
  | fOr (conds : List FilterExpr)
  | fEq (field : String) (value : FValue)
  | fIn (field : String) (values : List FValue)
  | fRange (field : String) (gte gt lte lt : Option FValue)
  | fContains (field : String) (sub : String)
  | fTimeRange (field : String) (tstart tend : Option FValue)
  | fRawDSL (payload : Dsl)
deriving Repr

mutual

/-- `CollectionAdapter._compile_filter` (vectordb_adapters/base.py).
`none` is the empty dict `{}` that the Python code returns for an empty
`And`/`Or`; sub-filters compiling to `{}` are dropped exactly as the
list comprehension `[c for c in conds if c]` drops them
(`compileFilterList`). -/
def compileFilter : FilterExpr → Option Dsl
  | .fRawDSL p => some p
  | .fAnd conds =>
      match compileFilterList conds with
      | [] => none
      | [c] => some c
      | cs => some (.andD cs)
  | .fOr conds =>
      match compileFilterList conds with
      | [] => none
      | [c] => some c
      | cs => some (.orD cs)
  | .fEq field value => some (.must field [value])
  | .fIn field values => some (.must field values)
  | .fRange field gte gt lte lt => some (.rangeD field gte gt lte lt)
  | .fContains field sub => some (.containsD field sub)
  | .fTimeRange field tstart tend => some (.rangeD field tstart none none tend)

/-- `[c for c in (self._compile_filter(c) for c in conds) if c]`. -/
def compileFilterList : List FilterExpr → List Dsl
  | [] => []
  | c :: cs =>
      match compileFilter c with
      | none => compileFilterList cs
      | some d => d :: compileFilterList cs

end

/-- `_compile_filter` applied to an optional filter (`None` compiles to `{}`). -/
def compileFilterOpt : Option FilterExpr → Option Dsl
  | none => none
  | some f => compileFilter f

/-! ## Records and the collection layer

A stored record / upsert payload is a Python dict over the fields of the
unified context-collection schema (`CollectionSchemas.context_collection`
in collection_schemas.py).  String fields use `""` for an absent or
`None` value (both are falsy in every branch the source takes); the
vector fields and `level` use `Option` because their presence is
significant (`query` pops the vector fields unless `with_vector`). -/

structure VRec where
  id : String := ""
  uri : String := ""
  parent_uri : String := ""
  context_type : String := ""
  level : Option Int := none
  vector : Option (List Rat) := none
  sparse_vector : Option (List (String × Rat)) := none
  abstract : String := ""
  name : String := ""
  account_id : String := ""
  owner_space : String := ""
  active_count : Int := 0
deriving DecidableEq, Repr

/-- The collection is the list of stored records, in insertion order. -/
abbrev Store := List VRec

/-- Schema fields of `path` type (`uri` and `parent_uri` in
`CollectionSchemas.context_collection`). -/
def isPathField (f : String) : Bool := f == "uri" || f == "parent_uri"

/-- Scalar value of a schema field of a record, as a filter value. -/
def getField (r : VRec) : String → Option FValue
  | "id" => some (.s r.id)
  | "uri" => some (.s r.uri)
  | "parent_uri" => some (.s r.parent_uri)
  | "context_type" => some (.s r.context_type)
  | "level" => r.level.map .i
  | "abstract" => some (.s r.abstract)
  | "name" => some (.s r.name)
  | "account_id" => some (.s r.account_id)
  | "owner_space" => some (.s r.owner_space)
  | "active_count" => some (.i r.active_count)
  | _ => none

/-- One `must` condition against a `path`-typed field value: the condition
matches the exact path, and a condition ending in `/` also matches every
path it is a proper prefix of. -/
def pathCondMatch (c v : String) : Bool :=
  v == c || (endsSlash c && chPfx c.data v.data)

mutual

/-- Modelled from the spec: evaluation of the compiled filter DSL against a
stored record.  The storage engine that evaluates filters (the local
collection of `openviking/storage/vectordb/collection` and the remote
VikingDB data plane) is not part of the repository sources; its semantics
are taken from the specification: `must` on a scalar field is membership
of the field value in `conds` (§4.1), and on a `path`-typed field a
condition `U + "/"` selects the whole subtree — "deletes all records whose
URI equals it or begins with `uri + \"/\"`" (§3, §4.3). -/
def evalDsl : Dsl → VRec → Bool
  | .must f conds, r =>
      match getField r f with
      | none => false
      | some v =>
          conds.any fun c =>
            match c, v with
            | .s cs, .s vs => if isPathField f then pathCondMatch cs vs else vs == cs
            | c, v => c == v
  | .andD cs, r => evalDslAll cs r
  | .orD cs, r => evalDslAny cs r
  | .rangeD f gte gt lte lt, r =>
      match getField r f with
      | some (.i v) =>
          (match gte with | some (.i b) => b ≤ v | some _ => false | none => true) &&
          (match gt with | some (.i b) => b < v | some _ => false | none => true) &&
          (match lte with | some (.i b) => v ≤ b | some _ => false | none => true) &&
          (match lt with | some (.i b) => v < b | some _ => false | none => true)
      | _ => false
  | .containsD f sub, r =>
      match getField r f with
      | some (.s vs) => decide (sub.data <:+: vs.data)
      | _ => false

/-- Conjunction over the sub-conditions of an `and` dict. -/
def evalDslAll : List Dsl → VRec → Bool
  | [], _ => true
  | d :: ds, r => evalDsl d r && evalDslAll ds r

/-- Disjunction over the sub-conditions of an `or` dict. -/
def evalDslAny : List Dsl → VRec → Bool
  | [], _ => false
  | d :: ds, r => evalDsl d r || evalDslAny ds r

end

/-- A record matches an optional compiled filter (`none` = the empty dict,
which matches everything). -/
def matchesFilter (d : Option Dsl) (r : VRec) : Bool :=
  match d with
  | none => true
  | some d => evalDsl d r

/-- Modelled from the spec: `Collection.upsert_data` keyed by the primary
key `id` (the collection layer is not in the repository sources).  Spec
§8 invariant 2 — "`upsert(R)` followed by `get([R.id])` returns exactly
one record with equal field values" — fixes replacement semantics: the
record stored under the same primary key is replaced whole. -/
def upsertData (store : Store) (r : VRec) : Store :=
  if store.any (fun x => x.id == r.id) then
    store.map (fun x => if x.id == r.id then r else x)
  else
    store ++ [r]

/-- `CollectionAdapter.upsert` (vectordb_adapters/base.py) for a single
record: assign a missing `id` (the source draws `str(uuid.uuid4())`,
passed in here as `fresh`), store, return the ids. -/
def adapterUpsert (fresh : String) (store : Store) (data : VRec) : List String × Store :=
  let rid := if data.id = "" then fresh else data.id
  let r := { data with id := rid }
  ([rid], upsertData store r)

/-- `CollectionAdapter.query` (vectordb_adapters/base.py) for the
filter-only scan paths: filter, paginate, and pop the vector fields
unless `with_vector`.  The scan order of `search_by_random` /
`search_by_scalar` is modelled as store order. -/
def adapterQuery (store : Store) (filter : Option Dsl) (limit : Nat) (offset : Nat)
    (withVector : Bool) : List VRec :=
  let matched := store.filter (matchesFilter filter)
  let page := (matched.drop offset).take limit
  if withVector then page
  else page.map fun r => { r with vector := none, sparse_vector := none }

/-- `CollectionAdapter.delete` with an explicit id list: drop every record
whose primary key is in the list, return the number of requested ids. -/
def adapterDeleteIds (store : Store) (ids : List String) : Store × Nat :=
  (store.filter (fun r => !(ids.contains r.id)), ids.length)

/-- `CollectionAdapter.delete` with a filter: resolve the filter to ids by
a bounded query (`limit`, default 100000, `with_vector=True`), then
delete by id. -/
def adapterDeleteFilter (store : Store) (filter : Option Dsl) (limit : Nat := 100000) :
    Store × Nat :=
  let matched := adapterQuery store filter limit 0 true
  let ids := (matched.filter (fun r => r.id ≠ "")).map (·.id)
  if ids.isEmpty then (store, 0) else adapterDeleteIds store ids

/-! ## Identity (`openviking/server/identity.py`, not in src) -/

/-- Modelled from the spec: request roles (`Role.ROOT` sees everything;
`Role.USER` is space-scoped; the admin role only appears in the admin
router). -/
inductive Role
  | root
  | admin
  | user
deriving DecidableEq, Repr

/-- Modelled from the spec: the immutable request context
`{role, account_id, user_space, agent_space}` (glossary).  The source
accesses the spaces as `ctx.user.user_space_name()` and
`ctx.user.agent_space_name()`. -/
structure RequestContext where
  role : Role
  account_id : String
  user_space : String
  agent_space : String
deriving DecidableEq, Repr

/-! ## Vector index backend (`viking_vector_index_backend.py`) -/

/-- `VikingVectorIndexBackend.ALLOWED_CONTEXT_TYPES`. -/
def ALLOWED_CONTEXT_TYPES : List String := ["resource", "skill", "memory"]

/-- `VikingVectorIndexBackend.upsert` (lines 144-160): reject an invalid
non-empty `context_type` with `""` and no write, assign a missing id
(`str(uuid.uuid4())`, passed in as `freshB`), filter fields against the
schema (the identity on this record model: every `VRec` field is a schema
field and absent values are already popped), and call the adapter (whose
own missing-id draw is `freshA`). -/
def backendUpsert (freshB freshA : String) (store : Store) (data : VRec) : String × Store :=
  if data.context_type ≠ "" ∧ data.context_type ∉ ALLOWED_CONTEXT_TYPES then
    ("", store)
  else
    let payload := if data.id = "" then { data with id := freshB } else data
    let (ids, store') := adapterUpsert freshA store payload
    (ids.headD "", store')

/-- `VikingVectorIndexBackend.get_context_by_uri`: filter on
`And [Eq uri, Eq account_id]` (plus `owner_space` when given), paginated
query without vectors. -/
def getContextByUri (account_id : String) (uri : String) (owner_space : Option String)
    (limit : Nat) (store : Store) : List VRec :=
  let conds := [FilterExpr.fEq "uri" (.s uri), FilterExpr.fEq "account_id" (.s account_id)]
  let conds :=
    match owner_space with
    | some sp => if sp ≠ "" then conds ++ [FilterExpr.fEq "owner_space" (.s sp)] else conds
    | none => conds
  adapterQuery store (compileFilter (.fAnd conds)) limit 0 false

/-- The per-URI deletion filter of `VikingVectorIndexBackend.delete_uris`:
`account_id == ctx.account_id AND (uri == U OR uri in [U+"/"])`, plus
`owner_space == expected_space` for a USER under `user`/`agent` scopes. -/
def deleteUrisFilter (ctx : RequestContext) (uri : String) : FilterExpr :=
  let base := [FilterExpr.fEq "account_id" (.s ctx.account_id),
               FilterExpr.fOr [.fEq "uri" (.s uri), .fIn "uri" [.s (uri ++ "/")]]]
  if ctx.role = .user ∧ (strStarts uri "viking://user/" ∨ strStarts uri "viking://agent/") then
    let owner_space := if strStarts uri "viking://user/" then ctx.user_space else ctx.agent_space
    .fAnd (base ++ [.fEq "owner_space" (.s owner_space)])
  else
    .fAnd base

/-- `VikingVectorIndexBackend.delete_uris`: delete the filter matches of
every URI in turn. -/
def deleteUris (ctx : RequestContext) (uris : List String) (store : Store) : Store :=
  uris.foldl (fun st u => (adapterDeleteFilter st (compileFilter (deleteUrisFilter ctx u))).1) store

/-- `VikingVectorIndexBackend.update_uri_mapping`: locate the record by
`(uri, account_id)` with `limit=1` (and without its vector fields),
rewrite `uri` and `parent_uri`, and upsert it under the same id.  The
fresh-uuid parameters of the upsert are irrelevant here because the
located record always carries its id. -/
def updateUriMapping (ctx : RequestContext) (uri new_uri new_parent_uri : String)
    (store : Store) : Bool × Store :=
  let records := adapterQuery store
    (compileFilter (.fAnd [.fEq "uri" (.s uri), .fEq "account_id" (.s ctx.account_id)])) 1 0 false
  match records.head? with
  | none => (false, store)
  | some record =>
      if record.id = "" then (false, store)
      else
        let updated := { record with uri := new_uri, parent_uri := new_parent_uri }
        let (rid, store') := backendUpsert "unused-uuid" "unused-uuid" store updated
        (rid ≠ "", store')

/-! ## Scope filter composition (`viking_vector_index_backend.py` 468-515)

`context_type` is an `Optional[str]` in the source; `""` plays the part
of `None` (both are falsy in `if context_type:` and neither equals
`"resource"`).  An extra filter is either an AST expression or a raw dict
(`Sum FilterExpr Dsl`). -/

/-- `VikingVectorIndexBackend._tenant_filter` (lines 496-506): no filter
for ROOT; otherwise `account_id == ctx.account_id` and `owner_space` in
the user and agent spaces, with `""` appended when `context_type` is
`"resource"`. -/
def tenantFilter (ctx : RequestContext) (context_type : String) : Option FilterExpr :=
  if ctx.role = .root then none
  else
    let owner_spaces :=
      [ctx.user_space, ctx.agent_space] ++ (if context_type = "resource" then [""] else [])
    some (.fAnd [.fEq "account_id" (.s ctx.account_id),
                 .fIn "owner_space" (owner_spaces.map .s)])

/-- `VikingVectorIndexBackend._merge_filters`: drop the empty slots, keep
a single filter as itself, conjoin several. -/
def mergeFilters (filters : List (Option FilterExpr)) : Option FilterExpr :=
  match filters.filterMap id with
  | [] => none
  | [f] => some f
  | fs => some (.fAnd fs)

/-- `VikingVectorIndexBackend._build_scope_filter` (lines 468-494):
optional `context_type` equality, the tenant filter, OR-of-membership
over the non-empty target directories, and the extra filter (a raw dict
is wrapped in `RawDSL`). -/
def buildScopeFilter (ctx : RequestContext) (context_type : String)
    (target_directories : List String) (extra_filter : Option (FilterExpr ⊕ Dsl)) :
    Option FilterExpr :=
  let ctPart : Option FilterExpr :=
    if context_type ≠ "" then some (.fEq "context_type" (.s context_type)) else none
  let tenantPart := tenantFilter ctx context_type
  let uri_conds := (target_directories.filter (· ≠ "")).map
    (fun target_dir => FilterExpr.fIn "uri" [.s target_dir])
  let targetPart : Option FilterExpr :=
    if target_directories.isEmpty then none
    else if uri_conds.isEmpty then none
    else some (.fOr uri_conds)
  let extraPart : Option FilterExpr :=
    extra_filter.map fun e => match e with | .inl f => f | .inr d => .fRawDSL d
  mergeFilters [ctPart, tenantPart, targetPart, extraPart]

/-- The filter that `search_in_tenant` passes to `search`. -/
def searchInTenantFilter (ctx : RequestContext) (context_type : String)
    (target_directories : List String) (extra_filter : Option (FilterExpr ⊕ Dsl)) :
    Option FilterExpr :=
  buildScopeFilter ctx context_type target_directories extra_filter

/-- The filter that `search_global_roots_in_tenant` passes to `search`:
the scope filter merged with `In("level", [0, 1])`. -/
def searchGlobalRootsFilter (ctx : RequestContext) (context_type : String)
    (target_directories : List String) (extra_filter : Option (FilterExpr ⊕ Dsl)) :
    Option FilterExpr :=
  mergeFilters [buildScopeFilter ctx context_type target_directories extra_filter,
                some (.fIn "level" [.i 0, .i 1])]

/-- The filter that `search_children_in_tenant` passes to `search`:
`Eq("parent_uri", parent_uri)` merged with the scope filter. -/
def searchChildrenFilter (ctx : RequestContext) (parent_uri : String) (context_type : String)
    (target_directories : List String) (extra_filter : Option (FilterExpr ⊕ Dsl)) :
    Option FilterExpr :=
  mergeFilters [some (.fEq "parent_uri" (.s parent_uri)),
                buildScopeFilter ctx context_type target_directories extra_filter]

mutual

/-- `target` occurs as a conjunct of the filter: it is the filter itself,
or a conjunct of a (possibly nested) `And`. -/
def hasConjunct (target : FilterExpr) : FilterExpr → Prop
  | .fAnd l => .fAnd l = target ∨ hasConjunctList target l
  | f => f = target

/-- Some member of the list has `target` as a conjunct. -/
def hasConjunctList (target : FilterExpr) : List FilterExpr → Prop
  | [] => False
  | f :: fs => hasConjunct target f ∨ hasConjunctList target fs

end

/-- `hasConjunct` on an optional filter (`none`, the absent filter,
contains nothing). -/
def hasConjunctOpt (target : FilterExpr) : Option FilterExpr → Prop
  | none => False
  | some f => hasConjunct target f

/-- The tenant conjunct as the amended claim states it: `account_id ==
ctx.account_id` and `owner_space` among the user and agent spaces, with
`""` admitted exactly when the query's `context_type` is `"resource"`. -/
def amendedTenantConjunct (ctx : RequestContext) (context_type : String) : FilterExpr :=
  .fAnd [.fEq "account_id" (.s ctx.account_id),
         .fIn "owner_space"
           (([ctx.user_space, ctx.agent_space] ++
             (if context_type = "resource" then [""] else [])).map .s)]

/-! ## VikingFS (`viking_fs.py`) -/

/-- Storage-layer error kinds surfaced by the facade; the access gate
raises the permission-denied kind (`PermissionDenied` of the spec's
taxonomy, `PermissionError(f"Access denied for {uri}")` in the source). -/
inductive OVError
  | permissionDenied (uri : String)
deriving DecidableEq, Repr

/-- `VikingFS._USER_STRUCTURE_DIRS`. -/
def USER_STRUCTURE_DIRS : List String := ["memories"]

/-- `VikingFS._AGENT_STRUCTURE_DIRS`. -/
def AGENT_STRUCTURE_DIRS : List String := ["memories", "skills", "instructions", "workspaces"]

/-- The segment list of a `viking://` URI: drop the scheme, split on `/`,
drop empty segments (the source's `strip("/")` plus
`[p for p in x.split("/") if p]`). -/
def uriParts (uri : String) : List String :=
  (splitSlash (strDrop uri 9)).filter (· ≠ "")

/-- `VikingFS._extract_space_from_uri` (lines 899-919): for `user`/`agent`
the second segment is the space unless it is a known structure directory;
for `session` it is always the space. -/
def extractSpaceFromUri (uri : String) : Option String :=
  if !(strStarts uri "viking://") then none
  else
    match uriParts uri with
    | scope :: second :: _ =>
        if scope = "user" ∧ second ∉ USER_STRUCTURE_DIRS then some second
        else if scope = "agent" ∧ second ∉ AGENT_STRUCTURE_DIRS then some second
        else if scope = "session" then some second
        else none
    | _ => none

/-- `VikingFS._is_accessible` (lines 921-946). -/
def isAccessible (uri : String) (ctx : RequestContext) : Bool :=
  if ctx.role = .root then true
  else if !(strStarts uri "viking://") then false
  else
    match uriParts uri with
    | [] => true
    | scope :: _ =>
        if scope ∈ ["resources", "temp", "transactions"] then true
        else if scope = "_system" then false
        else
          match extractSpaceFromUri uri with
          | none => true
          | some space =>
              if scope = "user" ∨ scope = "session" then space == ctx.user_space
              else if scope = "agent" then space == ctx.agent_space
              else true

/-- `VikingFS._ensure_access`: raise `PermissionDenied` when the URI is
not accessible under the request context. -/
def ensureAccess (uri : String) (ctx : RequestContext) : Except OVError Unit :=
  if isAccessible uri ctx then .ok () else .error (.permissionDenied uri)

/-- `VikingFS._shorten_component`: keep a component whose UTF-8 encoding
fits in `maxBytes`; otherwise trim it and append `_{8-hex}` drawn from
SHA-256 (the hash call is passed in as `hash8`). -/
def shortenComponent (hash8 : String → String) (component : String)
    (maxBytes : Nat := 255) : String :=
  if component.utf8ByteSize ≤ maxBytes then component
  else
    let suffix := "_" ++ hash8 component
    let target := maxBytes - suffix.utf8ByteSize
    let rec trim : List Char → List Char
      | [] => []
      | c :: cs =>
          if (String.mk (c :: cs)).utf8ByteSize > target then trim (c :: cs).dropLast
          else c :: cs
      termination_by cs => cs.length
      decreasing_by simp_wf
    String.mk (trim component.data) ++ suffix

/-- `VikingFS._uri_to_path`: pure prefix replacement
`viking://{remainder} -> /local/{account_id}/{remainder}` with component
shortening. -/
def uriToPath (hash8 : String → String) (ctx : RequestContext) (uri : String) : String :=
  let remainder := if strStarts uri "viking://" then stripSlashes (strDrop uri 9) else uri
  if remainder = "" then "/local/" ++ ctx.account_id
  else
    let parts := (splitSlash remainder).filter (· ≠ "")
    let safe_parts := parts.map (shortenComponent hash8)
    "/local/" ++ ctx.account_id ++ "/" ++ joinSlash safe_parts

/-- `VikingFS._path_to_uri`: strip `/local/{account_id}` and prepend
`viking://`. -/
def pathToUri (ctx : RequestContext) (path : String) : String :=
  if strStarts path "viking://" then path
  else if strStarts path "/local/" then
    let inner := stripSlashes (strDrop path 7)
    if inner = "" then "viking://"
    else
      let parts := (splitSlash inner).filter (· ≠ "")
      let parts :=
        match parts with
        | p :: rest => if p = ctx.account_id then rest else p :: rest
        | [] => []
      if parts = [] then "viking://" else "viking://" ++ joinSlash parts
  else if strStarts path "/" then "viking:/" ++ path
  else "viking://" ++ path

/-- `VikingFS.rm` (lines 256-271), on the vector-index side: check access,
map the URI to a path and back (the target URI actually deleted), append
it to the URIs collected from the blob tree (`_collect_uris`, passed in
as `collected` because the blob listing is an external collaborator), and
delete them all from the vector store.  The blob-store `rm` itself does
not touch the vector index. -/
def rm (hash8 : String → String) (ctx : RequestContext) (uri : String)
    (collected : List String) (store : Store) : Except OVError Store :=
  match ensureAccess uri ctx with
  | .error e => .error e
  | .ok _ =>
      let path := uriToPath hash8 ctx uri
      let target_uri := pathToUri ctx path
      let uris_to_delete := collected ++ [target_uri]
      .ok (deleteUris ctx uris_to_delete store)

/-- Python `s.replace(old, new, 1)`: replace the first occurrence of
`old` in `s`. -/
def replaceOnceAux (seen rest : List Char) (old new : List Char) : List Char :=
  match rest with
  | [] => seen.reverse
  | c :: cs =>
      if chPfx old rest then seen.reverse ++ new ++ rest.drop old.length
      else replaceOnceAux (c :: seen) cs old new

/-- Python `s.replace(old, new, 1)` on strings (for non-empty `old`, as in
every call site). -/
def replaceOnce (s old new : String) : String :=
  String.mk (replaceOnceAux [] s.data old.data new.data)

/-- `VikingFS._update_vector_store_uris` (lines 1064-1110): for each
collected URI, fetch its record by `(account_id, uri)`, rewrite the URI
and parent URI by first-occurrence prefix replacement, and call
`update_uri_mapping`. -/
def updateVectorStoreUris (ctx : RequestContext) (uris : List String)
    (old_base new_base : String) (store : Store) : Store :=
  let old_base_uri := pathToUri ctx old_base
  let new_base_uri := pathToUri ctx new_base
  uris.foldl
    (fun st uri =>
      match (getContextByUri ctx.account_id uri none 1 st).head? with
      | none => st
      | some record =>
          if record.id = "" then st
          else
            let new_uri := replaceOnce uri old_base_uri new_base_uri
            let old_parent_uri := record.parent_uri
            let new_parent_uri :=
              if old_parent_uri ≠ "" then replaceOnce old_parent_uri old_base_uri new_base_uri
              else ""
            (updateUriMapping ctx uri new_uri new_parent_uri st).2)
    store

/-- `VikingFS.mv` (lines 273-296), on the vector-index side, for the case
where the blob move succeeds: check access on both URIs, collect the
descendant URIs (passed in as `collected`), append the mapped target URI,
and rewrite the collected URIs in the vector store. -/
def mv (hash8 : String → String) (ctx : RequestContext) (old_uri new_uri : String)
    (collected : List String) (store : Store) : Except OVError Store :=
  match ensureAccess old_uri ctx with
  | .error e => .error e
  | .ok _ =>
      match ensureAccess new_uri ctx with
      | .error e => .error e
      | .ok _ =>
          let old_path := uriToPath hash8 ctx old_uri
          let target_uri := pathToUri ctx old_path
          let uris_to_move := collected ++ [target_uri]
          .ok (updateVectorStoreUris ctx uris_to_move old_uri new_uri store)

/-! ## Relation table (`viking_fs.py` 43-62, 752-813) -/

/-- `RelationEntry` (viking_fs.py lines 43-62). -/
structure RelationEntry where
  id : String
  uris : List String
  reason : String := ""
  created_at : String := ""
deriving DecidableEq, Repr

/-- The fresh link id of `VikingFS.link`:
`next(f"link_{i}" for i in range(1, 10000) if f"link_{i}" not in existing_ids)`
(`none` models the `StopIteration` when all 9999 ids are taken). -/
def freeLinkId (entries : List RelationEntry) : Option String :=
  ((List.range' 1 9999).find?
    (fun i => !((entries.map (·.id)).contains ("link_" ++ toString i)))).map
    (fun i => "link_" ++ toString i)

/-- The relation-table transformation of `VikingFS.link` (after its access
checks): append a new entry under the smallest free `link_{N}` id. -/
def linkTable (entries : List RelationEntry) (uris : List String) (reason : String)
    (created_at : String) : Option (List RelationEntry) :=
  (freeLinkId entries).map fun link_id =>
    entries ++ [{ id := link_id, uris := uris, reason := reason, created_at := created_at }]

/-- The relation-table transformation of `VikingFS.unlink` (after its
access checks): find the first entry containing the URI, remove the URI
from it (`list.remove`, first occurrence), and drop the entry when its
URI list became empty (`entries.remove`, first structurally-equal
occurrence — `RelationEntry` is a dataclass). -/
def unlinkTable (entries : List RelationEntry) (uri : String) : List RelationEntry :=
  match entries.findIdx? (fun e => uri ∈ e.uris) with
  | none => entries
  | some i =>
      match entries[i]? with
      | none => entries
      | some e =>
          let e' := { e with uris := e.uris.erase uri }
          let entries' := entries.set i e'
          if e'.uris.isEmpty then entries'.erase e' else entries'

/-! ## Embedding queue handler (`collection_schemas.py` 118-251) -/

/-- `EmbedResult` of the embedder interface: a dense vector and an
optional sparse vector (both falsy when empty/None). -/
structure EmbedResult where
  dense_vector : List Rat
  sparse_vector : Option (List (String × Rat))
deriving DecidableEq, Repr

/-- The `message` slot of an `EmbeddingMsg` is `Any`; the handler only
processes strings and skips every other payload. -/
inductive MsgVal
  | str (s : String)
  | nonStr
deriving DecidableEq, Repr

/-- `isinstance(embedding_msg.message, str)`. -/
def MsgVal.isStr : MsgVal → Bool
  | .str _ => true
  | .nonStr => false

/-- Modelled from the spec: `EmbeddingMsg {message: string, context_data:
ContextNode}` (§3; `openviking/storage/queuefs/embedding_msg.py` is not
in the repository sources).  The wire format of §6 makes every
`context_data` schema field present. -/
structure EmbeddingMsg where
  message : MsgVal
  context_data : VRec
deriving DecidableEq, Repr

/-- Modelled from the spec: the per-queue counter surface of
`DequeueHandlerBase` (`named_queue.py` is not in the repository sources).
§8 invariant 5 — after `N` enqueues and a full drain,
`processed_total + error_count == N` — makes `report_success` count one
processed message and `report_error` one failed message. -/
structure Counters where
  processed_total : Nat := 0
  error_count : Nat := 0
deriving DecidableEq, Repr

/-- Modelled from the spec: `report_success` (see `Counters`). -/
def reportSuccess (c : Counters) : Counters :=
  { c with processed_total := c.processed_total + 1 }

/-- Modelled from the spec: `report_error` (see `Counters`). -/
def reportError (c : Counters) : Counters :=
  { c with error_count := c.error_count + 1 }

/-- The record that `TextEmbeddingHandler.on_dequeue` builds from
`context_data` before the upsert (collection_schemas.py 186-213): attach
the dense and sparse vectors when present, and when a `uri` is present
assign `id = md5(account_id ":" uri)`.  `md5Hex` is
`hashlib.md5(...).hexdigest()`; `dict.get("account_id", "default")` is
modelled by reading `"default"` when the field holds the absent value
`""`. -/
def embRecord (md5Hex : String → String) (result : EmbedResult) (cd : VRec) : VRec :=
  let d1 :=
    if !result.dense_vector.isEmpty then { cd with vector := some result.dense_vector }
    else cd
  let d2 :=
    match result.sparse_vector with
    | some sv => { d1 with sparse_vector := some sv }
    | none => d1
  if d2.uri ≠ "" then
    let account_id := if d2.account_id = "" then "default" else d2.account_id
    let id_seed := account_id ++ ":" ++ d2.uri
    { d2 with id := md5Hex id_seed }
  else d2

/-- `TextEmbeddingHandler.on_dequeue` (collection_schemas.py 149-250) for
an already-parsed message, built around `embRecord` (the dimension check
of the source sits between the dense and sparse updates of `embRecord`
but reads only `result.dense_vector`, so hoisting the record construction
is equivalent).  `embedder` is the (possibly still uninitialized)
embedder whose blocking `embed` call is total here; `freshB`/`freshA` are
the uuid draws of the upsert path. -/
def onDequeue (md5Hex : String → String) (vector_dim : Nat) (is_closing : Bool)
    (embedder : Option (String → EmbedResult)) (freshB freshA : String)
    (msg : EmbeddingMsg) (store : Store) (ctr : Counters) : Store × Counters :=
  let inserted_data := msg.context_data
  if is_closing then (store, reportSuccess ctr)
  else
    match msg.message with
    | .nonStr => (store, reportSuccess ctr)
    | .str m =>
        match embedder with
        | none => (store, reportError ctr)
        | some embed =>
            let result := embed m
            if !result.dense_vector.isEmpty ∧ result.dense_vector.length ≠ vector_dim then
              (store, reportError ctr)
            else
              let d3 := embRecord md5Hex result inserted_data
              let (_, store') := backendUpsert freshB freshA store d3
              (store', reportSuccess ctr)

/-- A queue drain: process a batch of dequeued messages in order, each
with its embedder output and uuid draws, threading the store and the
counters (the per-message `report_success`/`report_error` of
`on_dequeue`). -/
def drainMsgs (md5Hex : String → String) (vector_dim : Nat)
    (batch : List (EmbeddingMsg × EmbedResult × String × String))
    (store : Store) (ctr : Counters) : Store × Counters :=
  batch.foldl
    (fun acc item =>
      onDequeue md5Hex vector_dim false (some fun _ => item.2.1) item.2.2.1 item.2.2.2
        item.1 acc.1 acc.2)
    (store, ctr)

/-! ## Hierarchical retriever (`hierarchical_retriever.py` 230-359)

The loop is modelled with explicit fuel; `rsLoop` returns `none` on fuel
exhaustion, so a `some` result is a terminating run.  `_rerank_client` is
`None` on both constructor branches of the source (lines 68-75), so child
scores are always the vector `_score`; the backend search behind
`search_children_in_tenant` is the parameter `search`.  `expanded`
records the URIs for which a child expansion (one `search` call) was
performed. -/

/-- A child record returned by `search_children_in_tenant`: the fields the
loop reads (`uri`, `level`, `_score`). -/
structure CRec where
  uri : String
  level : Option Int
  score : Rat
deriving DecidableEq, Repr

/-- A collected candidate carrying its `_final_score`. -/
structure CollectedRec where
  uri : String
  level : Option Int
  score : Rat
  finalScore : Rat
deriving DecidableEq, Repr

/-- `SCORE_PROPAGATION_ALPHA = 0.5`. -/
def SCORE_PROPAGATION_ALPHA : Rat := 1 / 2

/-- `MAX_CONVERGENCE_ROUNDS = 3`. -/
def MAX_CONVERGENCE_ROUNDS : Nat := 3

/-- `pre_filter_limit = max(limit * 2, 20)`. -/
def preFilterLimit (limit : Nat) : Nat := max (limit * 2) 20

/-- The `heapq` ordering on `(-score, uri)` pairs: lexicographic with the
Python string order on the URI. -/
def qLt (a b : Rat × String) : Bool :=
  a.1 < b.1 || (a.1 = b.1 && decide (a.2 < b.2))

/-- `heapq.heappop`: remove and return the least `(-score, uri)` entry. -/
def popMin (q : List (Rat × String)) : Option ((Rat × String) × List (Rat × String)) :=
  match q with
  | [] => none
  | x :: xs =>
      let m := xs.foldl (fun b a => if qLt a b then a else b) x
      some (m, q.erase m)

/-- Stable descending sort by `_final_score`
(`sorted(collected, key=lambda x: x.get("_final_score", 0), reverse=True)`). -/
def insertByFinal (c : CollectedRec) : List CollectedRec → List CollectedRec
  | [] => [c]
  | x :: xs => if c.finalScore ≥ x.finalScore then c :: x :: xs else x :: insertByFinal c xs

/-- See `insertByFinal`. -/
def sortByFinalDesc : List CollectedRec → List CollectedRec
  | [] => []
  | x :: xs => insertByFinal x (sortByFinalDesc xs)

/-- The URI set of the current top-`limit` of the collected results. -/
def topkUris (collected : List CollectedRec) (limit : Nat) : Finset String :=
  (((sortByFinalDesc collected).take limit).map (·.uri)).toFinset

/-- The loop state of `_recursive_search`. -/
structure RSState where
  collected : List CollectedRec
  dir_queue : List (Rat × String)
  visited : List String
  prev_topk : Finset String
  rounds : Nat
  expanded : List String

/-- The per-child body of `_recursive_search` (lines 315-341): propagate
the score, apply the threshold, collect deduplicated by URI, and either
mark a level-2 child visited or push it on the queue. -/
def childStep (thr : Rat) (gte : Bool) (current_score : Rat)
    (acc : List CollectedRec × List String × List (Rat × String)) (r : CRec) :
    List CollectedRec × List String × List (Rat × String) :=
  let (collected, visited, queue) := acc
  let alpha := SCORE_PROPAGATION_ALPHA
  let final_score :=
    if current_score ≠ 0 then alpha * r.score + (1 - alpha) * current_score else r.score
  let passes := if gte then final_score ≥ thr else final_score > thr
  if ¬ passes then acc
  else
    let collected' :=
      if collected.any (fun c => c.uri == r.uri) then collected
      else collected ++ [{ uri := r.uri, level := r.level, score := r.score,
                           finalScore := final_score }]
    if r.uri ∈ visited then (collected', visited, queue)
    else if r.level == some 2 then (collected', visited ++ [r.uri], queue)
    else (collected', visited, queue ++ [(-final_score, r.uri)])

/-- The while-loop of `_recursive_search`, with explicit fuel (`none` =
out of fuel, never the source's behaviour on a terminating run). -/
def rsLoop (search : String → Nat → List CRec) (limit : Nat) (thr : Rat) (gte : Bool) :
    Nat → RSState → Option RSState
  | 0, _ => none
  | fuel + 1, st =>
      match popMin st.dir_queue with
      | none => some st
      | some ((neg_score, current_uri), rest) =>
          if current_uri ∈ st.visited then
            rsLoop search limit thr gte fuel { st with dir_queue := rest }
          else
            let current_score := -neg_score
            let visited' := st.visited ++ [current_uri]
            let expanded' := st.expanded ++ [current_uri]
            let results := search current_uri (preFilterLimit limit)
            if results.isEmpty then
              rsLoop search limit thr gte fuel
                { st with dir_queue := rest, visited := visited', expanded := expanded' }
            else
              let out := results.foldl (childStep thr gte current_score)
                (st.collected, visited', rest)
              let current := topkUris out.1 limit
              if current = st.prev_topk ∧ limit ≤ current.card then
                let st' : RSState :=
                  { collected := out.1, dir_queue := out.2.2, visited := out.2.1,
                    prev_topk := st.prev_topk, rounds := st.rounds + 1, expanded := expanded' }
                if MAX_CONVERGENCE_ROUNDS ≤ st'.rounds then some st'
                else rsLoop search limit thr gte fuel st'
              else
                rsLoop search limit thr gte fuel
                  { collected := out.1, dir_queue := out.2.2, visited := out.2.1,
                    prev_topk := current, rounds := 0, expanded := expanded' }

/-- The initial loop state: the starting points pushed as
`(-score, uri)`. -/
def initState (starting_points : List (String × Rat)) : RSState :=
  { collected := [], dir_queue := starting_points.map (fun p => (-p.2, p.1)),
    visited := [], prev_topk := ∅, rounds := 0, expanded := [] }

/-- URIs reachable from the starting set through the child search: the
starting URIs, plus the URI of every child record of a reachable URI. -/
inductive RReach (search : String → Nat → List CRec) (pfl : Nat) (roots : List String) :
    String → Prop
  | root {u} : u ∈ roots → RReach search pfl roots u
  | child {p} {r : CRec} : RReach search pfl roots p → r ∈ search p pfl →
      RReach search pfl roots r.uri

/-- The widest child list the search can return over the URI universe
`R` (used only to size the termination measure). -/
def rsC (search : String → Nat → List CRec) (pfl : Nat) (R : Finset String) : Nat :=
  R.sup (fun u => (search u pfl).length)

/-- Termination measure of the best-first loop: unvisited universe
weighted by the queue growth one expansion can cause, plus the queue
length. -/
def rsMeasure (R : Finset String) (C : Nat) (st : RSState) : Nat :=
  (R.card - (st.visited.toFinset ∩ R).card) * (C + 1) + st.dir_queue.length

/-- Loop invariant of `rsLoop`: every queued URI is reachable, the
expanded URIs are distinct, reachable, and all marked visited. -/
def rsInv (search : String → Nat → List CRec) (pfl : Nat) (roots : List String)
    (st : RSState) : Prop :=
  (∀ e ∈ st.dir_queue, RReach search pfl roots e.2) ∧
  st.expanded.Nodup ∧
  (∀ u ∈ st.expanded, RReach search pfl roots u) ∧
  (∀ u ∈ st.expanded, u ∈ st.visited)

/-! ## Concrete instances used by counterexamples and witnesses -/

/-- A USER request context with spaces `alice` / `assist`. -/
def ctxAlice : RequestContext :=
  { role := .user, account_id := "a1", user_space := "alice", agent_space := "assist" }

/-- An upsert payload carrying a `uri` and no `id`. -/
def c1Payload : VRec :=
  { uri := "viking://resources/doc.md", account_id := "acme", context_type := "resource" }

/-- A relation table already holding one entry whose `uris` contain the
URI about to be linked. -/
def c8Table : List RelationEntry :=
  [{ id := "link_1", uris := ["viking://resources/x"], reason := "", created_at := "t0" }]

/-- A ROOT request context for account `acme`. -/
def ctxRoot : RequestContext :=
  { role := .root, account_id := "acme", user_space := "u", agent_space := "g" }

/-- A fully populated vector record for `viking://resources/guides/x.md`,
embeddings included. -/
def c2Rec : VRec :=
  { id := "r1", uri := "viking://resources/guides/x.md",
    parent_uri := "viking://resources/guides", context_type := "resource",
    level := some 2, vector := some [1, 2], sparse_vector := some [("pip", 1)],
    abstract := "Install instructions", name := "x.md", account_id := "acme",
    owner_space := "" }

/-- A batch of two well-formed embedding messages with one-dimensional
dense vectors, paired with their embedder outputs and uuid draws. -/
def c3Batch : List (EmbeddingMsg × EmbedResult × String × String) :=
  [(⟨.str "install docs", c1Payload⟩, ⟨[1], none⟩, "u1", "u2"),
   (⟨.str "usage docs",
     { uri := "viking://resources/usage.md", account_id := "acme",
       context_type := "resource" }⟩, ⟨[2], none⟩, "u3", "u4")]

end OpenViking

namespace OpenViking

/-! # Theorems -/

/-- C9: for all field names `a`, `c` and values `b`, `d`, `e`, compiling
`And([Eq(a, b), In(c, [d, e])])` yields exactly the DSL
`{"op": "and", "conds": [{"op": "must", "field": a, "conds": [b]},
{"op": "must", "field": c, "conds": [d, e]}]}`. -/
theorem c9_compile_and_eq_in (a c : String) (b d e : FValue) :
    compileFilter (.fAnd [.fEq a b, .fIn c [d, e]]) =
      some (.andD [.must a [b], .must c [d, e]]) := rfl

/-- C10: `VikingVectorIndexBackend.upsert` on a payload whose
`context_type` is non-empty and not one of
`{"resource", "memory", "skill"}` returns the empty string and leaves the
collection unchanged (no adapter write, no exception). -/
theorem c10_upsert_invalid_context_type (freshB freshA : String) (store : Store) (data : VRec)
    (h1 : data.context_type ≠ "") (h2 : data.context_type ∉ ALLOWED_CONTEXT_TYPES) :
    backendUpsert freshB freshA store data = ("", store) := by
  simp [backendUpsert, h1, h2]

/-- C10 witness: the theorem applied to a concrete payload with
`context_type = "junk"` over the empty store. -/
theorem c10_upsert_invalid_context_type_witness :
    (("junk" : String) ≠ "" ∧ ("junk" : String) ∉ ALLOWED_CONTEXT_TYPES) ∧
      backendUpsert "uuid-1" "uuid-2" [] { context_type := "junk" } = ("", []) :=
  ⟨by decide, c10_upsert_invalid_context_type "uuid-1" "uuid-2" [] { context_type := "junk" }
    (by decide) (by decide)⟩

/-- C1 counterexample: `VikingVectorIndexBackend.upsert` does not assign
`md5(account_id ":" uri)` — it assigns the fresh `uuid4` draw — so two
upserts of the same id-less `(account_id, uri)` payload write two
different primary keys and leave two records for that pair in the
collection. -/
theorem c1_counterexample :
    (backendUpsert "uuid-1" "uuid-a" [] c1Payload).1 = "uuid-1" ∧
    (backendUpsert "uuid-2" "uuid-b" (backendUpsert "uuid-1" "uuid-a" [] c1Payload).2
        c1Payload).1 = "uuid-2" ∧
    ((backendUpsert "uuid-2" "uuid-b" (backendUpsert "uuid-1" "uuid-a" [] c1Payload).2
        c1Payload).2.countP
      fun r => r.uri == c1Payload.uri && r.account_id == c1Payload.account_id) = 2 := by
  decide

/-- C6 counterexample: for the USER context with spaces `alice`/`assist`,
the URI `viking://user/memories/note.md` has `X = "memories" ∉ {alice,
assist}` yet the access gate admits it — `memories` is a structure
directory, so no space is extracted and the URI is visible. -/
theorem c6_counterexample :
    (("memories" : String) ≠ ctxAlice.user_space ∧
     ("memories" : String) ≠ ctxAlice.agent_space) ∧
    uriParts "viking://user/memories/note.md" = ["user", "memories", "note.md"] ∧
    ensureAccess "viking://user/memories/note.md" ctxAlice = .ok () :=
  ⟨by decide, by decide, by rfl⟩

/-- C8 counterexample: when the table already holds an entry containing
`U`, `link(F, [U], r)` followed by `unlink(F, U)` does not restore the
prior table — `unlink` strips `U` from the first entry containing it (the
pre-existing one, which becomes empty and is removed) and the newly
linked entry survives. -/
theorem c8_counterexample :
    (linkTable c8Table ["viking://resources/x"] "r" "t1").map
        (fun t => unlinkTable t "viking://resources/x") =
      some [{ id := "link_2", uris := ["viking://resources/x"], reason := "r",
              created_at := "t1" }] ∧
    ([{ id := "link_2", uris := ["viking://resources/x"], reason := "r",
        created_at := "t1" }] : List RelationEntry) ≠ c8Table := by
  decide

/-- C6 amended: for a USER-role context, a URI under `user/X` or `agent/X`
whose segment `X` is not a known structure directory and is neither the
user space nor the agent space is rejected by the access gate with
`PermissionDenied`. -/
theorem c6_access_denied_outside_spaces (uri X : String) (rest : List String)
    (ctx : RequestContext)
    (hrole : ctx.role = .user)
    (hstart : strStarts uri "viking://" = true)
    (hparts : uriParts uri = "user" :: X :: rest ∨ uriParts uri = "agent" :: X :: rest)
    (hud : X ∉ USER_STRUCTURE_DIRS)
    (had : X ∉ AGENT_STRUCTURE_DIRS)
    (hxu : X ≠ ctx.user_space)
    (hxa : X ≠ ctx.agent_space) :
    ensureAccess uri ctx = .error (.permissionDenied uri) := by
  have hacc : isAccessible uri ctx = false := by
    rcases hparts with h | h
    · simp [isAccessible, extractSpaceFromUri, hrole, hstart, h, hud, hxu]
    · simp [isAccessible, extractSpaceFromUri, hrole, hstart, h, had, hxa]
  simp [ensureAccess, hacc]

/-- C6 witness: the amended theorem applied to
`viking://user/bob/n.md` under the `alice`/`assist` USER context. -/
theorem c6_access_denied_outside_spaces_witness :
    (uriParts "viking://user/bob/n.md" = ["user", "bob", "n.md"] ∧
     ("bob" : String) ≠ ctxAlice.user_space ∧ ("bob" : String) ≠ ctxAlice.agent_space) ∧
    ensureAccess "viking://user/bob/n.md" ctxAlice =
      .error (.permissionDenied "viking://user/bob/n.md") :=
  ⟨by decide,
   c6_access_denied_outside_spaces "viking://user/bob/n.md" "bob" ["n.md"] ctxAlice rfl
     (by decide) (.inl (by decide)) (by decide) (by decide) (by decide) (by decide)⟩

/-- Every filter is a conjunct of itself. -/
theorem hasConjunct_self (f : FilterExpr) : hasConjunct f f := by
  cases f <;> simp [hasConjunct]

/-- A list member with `target` as conjunct witnesses `hasConjunctList`. -/
theorem hasConjunctList_of_mem {t f : FilterExpr} {l : List FilterExpr}
    (hf : f ∈ l) (ht : hasConjunct t f) : hasConjunctList t l := by
  induction l with
  | nil => cases hf
  | cons x xs ih =>
      rcases List.mem_cons.mp hf with h | h
      · exact Or.inl (h ▸ ht)
      · exact Or.inr (ih h)

/-- `_merge_filters` keeps every conjunct of every merged filter. -/
theorem hasConjunct_mergeFilters {t f : FilterExpr} {fs : List (Option FilterExpr)}
    (hf : some f ∈ fs) (ht : hasConjunct t f) : hasConjunctOpt t (mergeFilters fs) := by
  have hmem : f ∈ fs.filterMap id := by
    exact List.mem_filterMap.mpr ⟨some f, hf, rfl⟩
  unfold mergeFilters
  split
  · next heq => rw [heq] at hmem; cases hmem
  · next g heq =>
      rw [heq] at hmem
      simp only [List.mem_singleton] at hmem
      subst hmem
      simpa only [hasConjunctOpt] using ht
  · next h1 h2 =>
      simp only [hasConjunctOpt, hasConjunct]
      exact Or.inr (hasConjunctList_of_mem hmem ht)

/-- For a non-ROOT context the tenant filter is exactly the amended
tenant conjunct. -/
theorem tenantFilter_eq_amended (ctx : RequestContext) (ct : String)
    (hrole : ctx.role ≠ .root) :
    tenantFilter ctx ct = some (amendedTenantConjunct ctx ct) := by
  simp [tenantFilter, amendedTenantConjunct, hrole]

/-- C5 counterexample: the claim's tenant conjunct — with `""` always
among the admitted `owner_space` values — is absent from the scope filter
that `search_in_tenant` composes for a USER querying `context_type =
"memory"`: the source appends `""` only when the `context_type` is
`"resource"`. -/
theorem c5_counterexample :
    ctxAlice.role ≠ .root ∧
    ¬ hasConjunctOpt
        (.fAnd [.fEq "account_id" (.s ctxAlice.account_id),
                .fIn "owner_space"
                  [.s ctxAlice.user_space, .s ctxAlice.agent_space, .s ""]])
        (searchInTenantFilter ctxAlice "memory" [] none) := by
  constructor
  · decide
  · simp [searchInTenantFilter, buildScopeFilter, tenantFilter, mergeFilters, ctxAlice,
      hasConjunctOpt, hasConjunct, hasConjunctList]

/-- C5 amended: for every non-ROOT context and every query, the filter
composed by each tenant-scoped search helper contains the tenant conjunct
`account_id == ctx.account_id AND owner_space ∈ {user_space, agent_space}`
— with `""` additionally admitted exactly when the query's `context_type`
is `"resource"` — and for the ROOT role the tenant filter is `None`, so
no tenant conjunct is contributed. -/
theorem c5_scope_filters_contain_tenant (ctx : RequestContext) (ct parent : String)
    (tds : List String) (extra : Option (FilterExpr ⊕ Dsl)) :
    (ctx.role ≠ .root →
      hasConjunctOpt (amendedTenantConjunct ctx ct) (searchInTenantFilter ctx ct tds extra) ∧
      hasConjunctOpt (amendedTenantConjunct ctx ct) (searchGlobalRootsFilter ctx ct tds extra) ∧
      hasConjunctOpt (amendedTenantConjunct ctx ct)
        (searchChildrenFilter ctx parent ct tds extra)) ∧
    (ctx.role = .root → tenantFilter ctx ct = none) := by
  constructor
  · intro hrole
    have htf := tenantFilter_eq_amended ctx ct hrole
    have hscope : hasConjunctOpt (amendedTenantConjunct ctx ct)
        (buildScopeFilter ctx ct tds extra) := by
      apply hasConjunct_mergeFilters (f := amendedTenantConjunct ctx ct)
      · simp [buildScopeFilter, htf]
      · exact hasConjunct_self _
    obtain ⟨s, hs, hcs⟩ : ∃ s, buildScopeFilter ctx ct tds extra = some s ∧
        hasConjunct (amendedTenantConjunct ctx ct) s := by
      cases hb : buildScopeFilter ctx ct tds extra with
      | none => rw [hb] at hscope; cases hscope
      | some s => exact ⟨s, rfl, by rw [hb] at hscope; exact hscope⟩
    refine ⟨hscope, ?_, ?_⟩
    · exact hasConjunct_mergeFilters (f := s) (by simp [hs]) hcs
    · exact hasConjunct_mergeFilters (f := s) (by simp [hs]) hcs
  · intro hrole
    simp [tenantFilter, hrole]

/-- C5 witness: the amended theorem applied to the `alice`/`assist` USER
context with `context_type = "memory"`. -/
theorem c5_scope_filters_contain_tenant_witness :
    ctxAlice.role ≠ .root ∧
    (hasConjunctOpt (amendedTenantConjunct ctxAlice "memory")
        (searchInTenantFilter ctxAlice "memory" [] none) ∧
     hasConjunctOpt (amendedTenantConjunct ctxAlice "memory")
        (searchGlobalRootsFilter ctxAlice "memory" [] none) ∧
     hasConjunctOpt (amendedTenantConjunct ctxAlice "memory")
        (searchChildrenFilter ctxAlice "viking://resources" "memory" [] none)) :=
  ⟨by decide,
   (c5_scope_filters_contain_tenant ctxAlice "memory" "viking://resources" [] none).1
     (by decide)⟩

/-- `findIdx?` skips a block with no matches, shifting the index. -/
theorem findIdx?_append_of_notfound {α} (p : α → Bool) (l1 l2 : List α) (i : Nat)
    (h : ∀ x ∈ l1, p x = false) :
    List.findIdx? p (l1 ++ l2) i = List.findIdx? p l2 (i + l1.length) := by
  induction l1 generalizing i with
  | nil => simp
  | cons a as ih =>
      rw [List.cons_append, List.findIdx?_cons, if_neg (by simp [h a (by simp)])]
      rw [ih (i + 1) (fun x hx => h x (List.mem_cons_of_mem a hx))]
      congr 1
      simp
      omega

/-- A fresh link id returned by `freeLinkId` is unused in the table. -/
theorem freeLinkId_fresh {entries : List RelationEntry} {lid : String}
    (h : freeLinkId entries = some lid) : ∀ e ∈ entries, e.id ≠ lid := by
  unfold freeLinkId at h
  cases hfind : (List.range' 1 9999).find?
      (fun i => !((entries.map (·.id)).contains ("link_" ++ toString i))) with
  | none => rw [hfind] at h; cases h
  | some i =>
      rw [hfind] at h
      simp only [Option.map_some'] at h
      injection h with h'
      have hp := List.find?_some hfind
      simp only [Bool.not_eq_true'] at hp
      intro e he heq
      have hmem : ("link_" ++ toString i) ∈ entries.map (·.id) := by
        refine List.mem_map.mpr ⟨e, he, ?_⟩
        rw [heq, ← h']
      have hany : ((entries.map (·.id)).any (fun x => ("link_" ++ toString i) == x)) = true :=
        List.any_eq_true.mpr ⟨_, hmem, by simp⟩
      rw [List.contains_eq_any_beq, hany] at hp
      cases hp

/-- C8 amended: when no existing entry of the table contains `U` (and a
free `link_{N}` id is available), `link(F, [U], r)` followed by
`unlink(F, U)` restores the relation table exactly: the new entry,
emptied of its last URI, is removed. -/
theorem c8_link_unlink_roundtrip (entries : List RelationEntry) (U reason created : String)
    (hfree : (freeLinkId entries).isSome)
    (hnotin : ∀ e ∈ entries, U ∉ e.uris) :
    (linkTable entries [U] reason created).map (fun t => unlinkTable t U) = some entries := by
  obtain ⟨lid, hlid⟩ := Option.isSome_iff_exists.mp hfree
  have hfresh := freeLinkId_fresh hlid
  set E : RelationEntry := { id := lid, uris := [U], reason := reason, created_at := created }
    with hE
  have hlink : linkTable entries [U] reason created = some (entries ++ [E]) := by
    simp [linkTable, hlid, hE]
  rw [hlink]
  simp only [Option.map_some', Option.some.injEq]
  have hidx : List.findIdx? (fun e => decide (U ∈ e.uris)) (entries ++ [E]) =
      some entries.length := by
    rw [findIdx?_append_of_notfound _ _ _ _ (by
      intro x hx
      simp [hnotin x hx])]
    simp [hE, List.findIdx?_cons]
  have herase : ([U].erase U : List String) = [] := by simp
  have hnotmem : RelationEntry.mk lid [] reason created ∉ entries := by
    intro hmem
    exact hfresh _ hmem rfl
  simp only [unlinkTable, hidx, List.getElem?_concat_length, hE, herase, List.isEmpty_nil,
    if_true, List.set_append, lt_irrefl, if_false, Nat.sub_self, List.set]
  rw [List.erase_append_right _ hnotmem]
  simp

/-- C8 witness: the amended theorem applied to a table holding one entry
for a different URI. -/
theorem c8_link_unlink_roundtrip_witness :
    ((freeLinkId c8Table).isSome ∧ ∀ e ∈ c8Table, "viking://resources/y" ∉ e.uris) ∧
    (linkTable c8Table ["viking://resources/y"] "r2" "t2").map
        (fun t => unlinkTable t "viking://resources/y") = some c8Table :=
  ⟨⟨by decide, by decide⟩,
   c8_link_unlink_roundtrip c8Table "viking://resources/y" "r2" "t2" (by decide) (by decide)⟩

/-- `upsert_data` keyed by the primary key leaves at most one record
under any fixed key beyond those already there: the count under `key`
never exceeds `max (previous count) 1`. -/
theorem countP_id_upsertData (s : Store) (r : VRec) (key : String) :
    ((upsertData s r).countP (fun x => x.id == key)) ≤
      max (s.countP (fun x => x.id == key)) 1 := by
  unfold upsertData
  by_cases h : s.any (fun x => x.id == r.id) = true
  · simp only [h, if_true]
    have heq : ((s.map (fun x => if x.id == r.id then r else x)).countP
        (fun x => x.id == key)) = s.countP (fun x => x.id == key) := by
      rw [List.countP_map]
      apply List.countP_congr
      intro x _
      by_cases hx : x.id == r.id
      · have : x.id = r.id := by simpa using hx
        simp [Function.comp, hx, this]
      · simp [Function.comp, hx]
    rw [heq]
    exact le_max_left _ _
  · have h' : s.any (fun x => x.id == r.id) = false := by
      simpa using h
    simp only [h', Bool.false_eq_true, if_false]
    rw [List.countP_append]
    by_cases hk : (r.id == key) = true
    · have hrk : r.id = key := by simpa using hk
      have h0 : s.countP (fun x => x.id == key) = 0 := by
        rw [List.countP_eq_zero]
        intro a ha hak
        have : (a.id == r.id) = true := by
          have : a.id = key := by simpa using hak
          simp [this, hrk]
        exact absurd this (by
          have := List.any_eq_false.mp h' a ha
          simpa using this)
      simp [h0, List.countP_cons, hk]
    · simp only [List.countP_cons, hk, Bool.false_eq_true, if_false, Nat.add_zero]
      exact Nat.le_max_left _ _

/-- The count bound carried through `VikingVectorIndexBackend.upsert`:
whatever branch the upsert takes, at most `max (previous count) 1`
records share any fixed primary key afterwards. -/
theorem countP_backendUpsert_le (f1 f2 : String) (store : Store) (data : VRec) (key : String) :
    ((backendUpsert f1 f2 store data).2.countP (fun r => r.id == key)) ≤
      max (store.countP (fun r => r.id == key)) 1 := by
  unfold backendUpsert
  by_cases hct : data.context_type ≠ "" ∧ data.context_type ∉ ALLOWED_CONTEXT_TYPES
  · rw [if_pos hct]
    exact Nat.le_max_left _ _
  · rw [if_neg hct]
    unfold adapterUpsert
    exact countP_id_upsertData _ _ _

/-- The id that `on_dequeue` writes under: `md5(account_id ":" uri)` when
a URI is present. -/
theorem embRecord_id (md5Hex : String → String) (e : EmbedResult) (cd : VRec)
    (hu : cd.uri ≠ "") :
    (embRecord md5Hex e cd).id =
      md5Hex ((if cd.account_id = "" then "default" else cd.account_id) ++ ":" ++ cd.uri) := by
  cases hsv : e.sparse_vector <;> by_cases hdv : e.dense_vector.isEmpty <;>
    simp [embRecord, hsv, hdv, hu]

/-- The success path of `on_dequeue`: not shutting down, a string
message, an initialized embedder and a dense vector of the configured
dimension lead to exactly one upsert of `embRecord` and one
`report_success`. -/
theorem onDequeue_success (md5Hex : String → String) (dim : Nat) (e : EmbedResult)
    (f1 f2 m : String) (cd : VRec) (store : Store) (ctr : Counters)
    (hd : e.dense_vector.length = dim) :
    onDequeue md5Hex dim false (some fun _ => e) f1 f2 ⟨.str m, cd⟩ store ctr =
      ((backendUpsert f1 f2 store (embRecord md5Hex e cd)).2, reportSuccess ctr) := by
  simp [onDequeue, hd]

/-- C1 amended: the stable id `md5(account_id ":" uri)` is assigned by
`TextEmbeddingHandler.on_dequeue` before it calls `upsert` (`upsert`
itself assigns a random UUID when the id is missing, see the
counterexample).  Two handler runs over payloads with the same
`(account_id, uri)` therefore write under the same primary key, and a
store holding at most one record under that key still holds at most one
after both runs. -/
theorem c1_handler_assigns_stable_id (md5Hex : String → String) (dim : Nat)
    (e1 e2 : EmbedResult) (f1 f2 f3 f4 m1 m2 : String) (cd1 cd2 : VRec)
    (store : Store) (ctr1 ctr2 : Counters) (a u : String)
    (h1u : cd1.uri = u) (h2u : cd2.uri = u)
    (h1a : cd1.account_id = a) (h2a : cd2.account_id = a)
    (hu : u ≠ "")
    (hd1 : e1.dense_vector.length = dim) (hd2 : e2.dense_vector.length = dim)
    (hstore : store.countP
      (fun r => r.id == md5Hex ((if a = "" then "default" else a) ++ ":" ++ u)) ≤ 1) :
    (embRecord md5Hex e1 cd1).id =
        md5Hex ((if a = "" then "default" else a) ++ ":" ++ u) ∧
    (embRecord md5Hex e2 cd2).id =
        md5Hex ((if a = "" then "default" else a) ++ ":" ++ u) ∧
    ((onDequeue md5Hex dim false (some fun _ => e2) f3 f4 ⟨.str m2, cd2⟩
        (onDequeue md5Hex dim false (some fun _ => e1) f1 f2 ⟨.str m1, cd1⟩ store ctr1).1
        ctr2).1.countP
      (fun r => r.id == md5Hex ((if a = "" then "default" else a) ++ ":" ++ u))) ≤ 1 := by
  have hid1 := embRecord_id md5Hex e1 cd1 (h1u ▸ hu)
  have hid2 := embRecord_id md5Hex e2 cd2 (h2u ▸ hu)
  rw [h1u, h1a] at hid1
  rw [h2u, h2a] at hid2
  refine ⟨hid1, hid2, ?_⟩
  rw [onDequeue_success md5Hex dim e1 f1 f2 m1 cd1 store ctr1 hd1]
  rw [onDequeue_success md5Hex dim e2 f3 f4 m2 cd2 _ ctr2 hd2]
  have hb1 := countP_backendUpsert_le f1 f2 store (embRecord md5Hex e1 cd1)
    (md5Hex ((if a = "" then "default" else a) ++ ":" ++ u))
  have hb2 := countP_backendUpsert_le f3 f4
    (backendUpsert f1 f2 store (embRecord md5Hex e1 cd1)).2 (embRecord md5Hex e2 cd2)
    (md5Hex ((if a = "" then "default" else a) ++ ":" ++ u))
  dsimp only
  omega

/-- C1 witness: the amended theorem applied to two id-less payloads for
`(acme, viking://resources/doc.md)` with unit dense vectors over the
empty store. -/
theorem c1_handler_assigns_stable_id_witness :
    (c1Payload.uri = "viking://resources/doc.md" ∧ c1Payload.uri ≠ "" ∧
     (([(1 : Rat)] : List Rat)).length = 1 ∧
     (([] : Store).countP
       (fun r => r.id == (fun s => "md5-" ++ s)
         ((if ("acme" : String) = "" then "default" else "acme") ++ ":" ++
           "viking://resources/doc.md")) ≤ 1)) ∧
    ((onDequeue (fun s => "md5-" ++ s) 1 false (some fun _ => ⟨[1], none⟩) "f3" "f4"
        ⟨.str "two", c1Payload⟩
        (onDequeue (fun s => "md5-" ++ s) 1 false (some fun _ => ⟨[1], none⟩) "f1" "f2"
          ⟨.str "one", c1Payload⟩ [] ⟨0, 0⟩).1
        ⟨0, 0⟩).1.countP
      (fun r => r.id == (fun s => "md5-" ++ s)
        ((if ("acme" : String) = "" then "default" else "acme") ++ ":" ++
          "viking://resources/doc.md"))) ≤ 1 :=
  ⟨⟨rfl, by decide, rfl, by decide⟩,
   (c1_handler_assigns_stable_id (fun s => "md5-" ++ s) 1 ⟨[1], none⟩ ⟨[1], none⟩
     "f1" "f2" "f3" "f4" "one" "two" c1Payload c1Payload [] ⟨0, 0⟩ ⟨0, 0⟩
     "acme" "viking://resources/doc.md" rfl rfl rfl rfl (by decide) rfl rfl
     (by decide)).2.2⟩

/-- Draining a batch of string messages whose dense vectors have the
configured dimension adds one `processed_total` per message and leaves
`error_count` untouched. -/
theorem drainMsgs_counts (md5Hex : String → String) (dim : Nat)
    (batch : List (EmbeddingMsg × EmbedResult × String × String)) (store : Store)
    (ctr : Counters)
    (hb : ∀ item ∈ batch, item.1.message.isStr = true ∧
      item.2.1.dense_vector.length = dim) :
    (drainMsgs md5Hex dim batch store ctr).2 =
      ⟨ctr.processed_total + batch.length, ctr.error_count⟩ := by
  induction batch generalizing store ctr with
  | nil => simp [drainMsgs]
  | cons item rest ih =>
      obtain ⟨msg, e, f1, f2⟩ := item
      obtain ⟨hstr, hd⟩ := hb _ (List.mem_cons_self _ _)
      obtain ⟨m, hm⟩ : ∃ m, msg.message = .str m := by
        cases hmv : msg.message with
        | str s => exact ⟨s, rfl⟩
        | nonStr => rw [hmv] at hstr; cases hstr
      have hmsg : msg = ⟨.str m, msg.context_data⟩ := by
        cases msg; simp_all
      rw [hmsg]
      unfold drainMsgs
      simp only [List.foldl_cons]
      rw [show (onDequeue md5Hex dim false (some fun _ => e) f1 f2
          ⟨.str m, msg.context_data⟩ store ctr) =
          ((backendUpsert f1 f2 store (embRecord md5Hex e msg.context_data)).2,
            reportSuccess ctr) from onDequeue_success md5Hex dim e f1 f2 m
            msg.context_data store ctr hd]
      have := ih (backendUpsert f1 f2 store (embRecord md5Hex e msg.context_data)).2
        (reportSuccess ctr) (fun x hx => hb x (List.mem_cons_of_mem _ hx))
      unfold drainMsgs at this
      rw [this]
      simp only [reportSuccess, List.length_cons]
      congr 1
      omega

/-- C3: on a dequeued string message whose `context_data` carries the
schema fields and whose embedder returns a dense vector of the configured
dimension, `on_dequeue` upserts the built record into the vector index
and calls `report_success` exactly once; draining `N` such messages from
zeroed counters ends with `processed_total = N` and `error_count = 0`. -/
theorem c3_embedding_drain_counts (md5Hex : String → String) (dim : Nat)
    (batch : List (EmbeddingMsg × EmbedResult × String × String)) (store : Store)
    (hb : ∀ item ∈ batch, item.1.message.isStr = true ∧
      item.2.1.dense_vector.length = dim) :
    (∀ (e : EmbedResult) (f1 f2 m : String) (cd : VRec) (st : Store) (ctr : Counters),
        e.dense_vector.length = dim →
        onDequeue md5Hex dim false (some fun _ => e) f1 f2 ⟨.str m, cd⟩ st ctr =
          ((backendUpsert f1 f2 st (embRecord md5Hex e cd)).2, reportSuccess ctr)) ∧
    (drainMsgs md5Hex dim batch store ⟨0, 0⟩).2 = ⟨batch.length, 0⟩ := by
  constructor
  · intro e f1 f2 m cd st ctr hd
    exact onDequeue_success md5Hex dim e f1 f2 m cd st ctr hd
  · have := drainMsgs_counts md5Hex dim batch store ⟨0, 0⟩ hb
    simpa using this

/-- C3 witness: the theorem applied to the concrete two-message batch
over the empty store. -/
theorem c3_embedding_drain_counts_witness :
    (∀ item ∈ c3Batch, item.1.message.isStr = true ∧
      item.2.1.dense_vector.length = 1) ∧
    (drainMsgs (fun s => "md5-" ++ s) 1 c3Batch [] ⟨0, 0⟩).2 = ⟨c3Batch.length, 0⟩ :=
  ⟨by decide,
   (c3_embedding_drain_counts (fun s => "md5-" ++ s) 1 c3Batch [] (by decide)).2⟩

/-- C2: `mv` does not preserve the stored embeddings.  On a store holding
one fully populated record, renaming its file leaves exactly one record
under the new URI and none under the old one, but its `vector` and
`sparse_vector` are gone: `update_uri_mapping` refetches the record
through `query` with `with_vector=False` (which pops both vector fields)
and the upsert replaces the stored record whole — contradicting the
docstring of `_update_vector_store_uris` ("Preserves vector data ...")
and the spec. -/
theorem c2_mv_drops_vectors :
    mv (fun _ => "00000000") ctxRoot "viking://resources/guides/x.md"
        "viking://resources/guides/install.md" [] [c2Rec] =
      .ok [{ c2Rec with
              uri := "viking://resources/guides/install.md",
              vector := none,
              sparse_vector := none }] ∧
    c2Rec.vector = some [1, 2] ∧ c2Rec.sparse_vector = some [("pip", 1)] :=
  ⟨by rfl, rfl, rfl⟩

/-- Appending `"/"` produces a string ending in `/`. -/
theorem endsSlash_append (u : String) : endsSlash (u ++ "/") = true := by
  unfold endsSlash
  rw [String.data_append]
  rw [show ("/" : String).data = ['/'] from rfl]
  rw [List.getLast?_concat]
  rfl

/-- Deleting by filter only removes records. -/
theorem adapterDeleteFilter_fst_sublist (st : Store) (d : Option Dsl) (limit : Nat) :
    ((adapterDeleteFilter st d limit).1).Sublist st := by
  unfold adapterDeleteFilter
  dsimp only
  split
  · exact List.Sublist.refl st
  · exact List.filter_sublist st

/-- `delete_uris` only removes records. -/
theorem deleteUris_sublist (ctx : RequestContext) (uris : List String) (store : Store) :
    (deleteUris ctx uris store).Sublist store := by
  induction uris generalizing store with
  | nil => exact List.Sublist.refl store
  | cons u us ih =>
      unfold deleteUris
      simp only [List.foldl_cons]
      have h1 := adapterDeleteFilter_fst_sublist store
        (compileFilter (deleteUrisFilter ctx u)) 100000
      have h2 := ih ((adapterDeleteFilter store (compileFilter (deleteUrisFilter ctx u))).1)
      unfold deleteUris at h2
      exact h2.trans h1

/-- A record of the right account whose URI is `U` or sits under
`U + "/"` (with the `owner_space` that the USER-scoped delete expects)
matches the compiled per-URI deletion filter. -/
theorem evalDelete_matches (ctx : RequestContext) (U : String) (r : VRec)
    (hacct : r.account_id = ctx.account_id)
    (hsub : r.uri = U ∨ chPfx (U ++ "/").data r.uri.data = true)
    (howner : ctx.role = .user →
      (strStarts U "viking://user/" = true ∨ strStarts U "viking://agent/" = true) →
      r.owner_space =
        (if strStarts U "viking://user/" = true then ctx.user_space else ctx.agent_space)) :
    matchesFilter (compileFilter (deleteUrisFilter ctx U)) r = true := by
  unfold deleteUrisFilter
  by_cases hc : ctx.role = .user ∧
      (strStarts U "viking://user/" = true ∨ strStarts U "viking://agent/" = true)
  · rw [if_pos hc]
    have ho := howner hc.1 hc.2
    rcases hsub with h | h
    · simp [matchesFilter, compileFilter, compileFilterList, evalDsl, evalDslAll, evalDslAny,
        getField, isPathField, pathCondMatch, hacct, ho, h, endsSlash_append]
    · have h' : chPfx (U.data ++ ['/']) r.uri.data = true := by
        rw [String.data_append] at h
        exact h
      simp [matchesFilter, compileFilter, compileFilterList, evalDsl, evalDslAll, evalDslAny,
        getField, isPathField, pathCondMatch, hacct, ho, h', endsSlash_append]
  · rw [if_neg hc]
    rcases hsub with h | h
    · simp [matchesFilter, compileFilter, compileFilterList, evalDsl, evalDslAll, evalDslAny,
        getField, isPathField, pathCondMatch, hacct, h, endsSlash_append]
    · have h' : chPfx (U.data ++ ['/']) r.uri.data = true := by
        rw [String.data_append] at h
        exact h
      simp [matchesFilter, compileFilter, compileFilterList, evalDsl, evalDslAll, evalDslAny,
        getField, isPathField, pathCondMatch, hacct, h', endsSlash_append]

/-- One pass of the per-URI deletion of `delete_uris` removes every
record of the account that equals `U` or sits under `U + "/"`, provided
the store is within the bounded-query limit, every record carries an id,
and the subtree records carry the expected `owner_space`. -/
theorem deleteFilter_removes_subtree (ctx : RequestContext) (U : String) (st : Store)
    (hsize : st.length ≤ 100000)
    (hid : ∀ r ∈ st, r.id ≠ "")
    (howner : ∀ r ∈ st, r.account_id = ctx.account_id →
      (r.uri = U ∨ chPfx (U ++ "/").data r.uri.data = true) →
      ctx.role = .user →
      (strStarts U "viking://user/" = true ∨ strStarts U "viking://agent/" = true) →
      r.owner_space =
        (if strStarts U "viking://user/" = true then ctx.user_space else ctx.agent_space)) :
    ∀ r ∈ (adapterDeleteFilter st (compileFilter (deleteUrisFilter ctx U))).1,
      ¬(r.account_id = ctx.account_id ∧
        (r.uri = U ∨ chPfx (U ++ "/").data r.uri.data = true)) := by
  intro r hr hprop
  have hrst : r ∈ st :=
    List.Sublist.mem hr
      (adapterDeleteFilter_fst_sublist st (compileFilter (deleteUrisFilter ctx U)) 100000)
  have hmatch : matchesFilter (compileFilter (deleteUrisFilter ctx U)) r = true :=
    evalDelete_matches ctx U r hprop.1 hprop.2
      (fun h1 h2 => howner r hrst hprop.1 hprop.2 h1 h2)
  have hquery : adapterQuery st (compileFilter (deleteUrisFilter ctx U)) 100000 0 true =
      st.filter (matchesFilter (compileFilter (deleteUrisFilter ctx U))) := by
    unfold adapterQuery
    rw [if_pos rfl]
    rw [List.drop_zero]
    exact List.take_of_length_le
      ((List.filter_sublist st).length_le.trans hsize)
  have hrfilter : r ∈ st.filter (matchesFilter (compileFilter (deleteUrisFilter ctx U))) :=
    List.mem_filter.mpr ⟨hrst, hmatch⟩
  have hidmem : r.id ∈
      ((st.filter (matchesFilter (compileFilter (deleteUrisFilter ctx U)))).filter
        (fun x => x.id ≠ "")).map (·.id) :=
    List.mem_map.mpr ⟨r, List.mem_filter.mpr ⟨hrfilter, by simp [hid r hrst]⟩, rfl⟩
  have hcontains : (((st.filter
      (matchesFilter (compileFilter (deleteUrisFilter ctx U)))).filter
        (fun x => x.id ≠ "")).map (·.id)).contains r.id = true := by
    rw [List.contains_eq_any_beq]
    exact List.any_eq_true.mpr ⟨r.id, hidmem, by simp⟩
  unfold adapterDeleteFilter at hr
  rw [hquery] at hr
  dsimp only at hr
  split at hr
  · next hempty =>
      rw [List.isEmpty_iff] at hempty
      rw [hempty] at hcontains
      cases hcontains
  · next hempty =>
      unfold adapterDeleteIds at hr
      have := (List.mem_filter.mp hr).2
      rw [hcontains] at this
      cases this

/-- C4: after `rm(U, recursive=true)` completes, the vector index holds
no record of the account whose `uri` equals `U` or begins with `U + "/"`
— under the data-model assumptions that the store fits the bounded
deletion query, every record carries a primary key, and subtree records
carry the `owner_space` their URI dictates. -/
theorem c4_rm_deletes_subtree (hash8 : String → String) (ctx : RequestContext) (U : String)
    (collected : List String) (store : Store) (result : Store)
    (hround : pathToUri ctx (uriToPath hash8 ctx U) = U)
    (hsize : store.length ≤ 100000)
    (hid : ∀ r ∈ store, r.id ≠ "")
    (howner : ∀ r ∈ store, r.account_id = ctx.account_id →
      (r.uri = U ∨ chPfx (U ++ "/").data r.uri.data = true) →
      ctx.role = .user →
      (strStarts U "viking://user/" = true ∨ strStarts U "viking://agent/" = true) →
      r.owner_space =
        (if strStarts U "viking://user/" = true then ctx.user_space else ctx.agent_space))
    (hres : rm hash8 ctx U collected store = .ok result) :
    ∀ r ∈ result, ¬(r.account_id = ctx.account_id ∧
      (r.uri = U ∨ chPfx (U ++ "/").data r.uri.data = true)) := by
  unfold rm at hres
  cases hacc : ensureAccess U ctx with
  | error e => rw [hacc] at hres; cases hres
  | ok _ =>
      rw [hacc] at hres
      simp only [Except.ok.injEq] at hres
      rw [hround] at hres
      have hsplit : deleteUris ctx (collected ++ [U]) store =
          (adapterDeleteFilter (deleteUris ctx collected store)
            (compileFilter (deleteUrisFilter ctx U))).1 := by
        unfold deleteUris
        rw [List.foldl_append]
        simp [List.foldl_cons]
      rw [hsplit] at hres
      subst hres
      have hsub := deleteUris_sublist ctx collected store
      exact deleteFilter_removes_subtree ctx U (deleteUris ctx collected store)
        (hsub.length_le.trans hsize)
        (fun r hr => hid r (hsub.mem hr))
        (fun r hr => howner r (hsub.mem hr))

/-- C4 witness: the theorem applied to a ROOT `rm` of
`viking://resources/guides` over a one-record store holding a file in
that subtree; the record is removed. -/
theorem c4_rm_deletes_subtree_witness :
    (pathToUri ctxRoot (uriToPath (fun _ => "h") ctxRoot "viking://resources/guides") =
      "viking://resources/guides" ∧
     ([c2Rec] : Store).length ≤ 100000 ∧
     rm (fun _ => "h") ctxRoot "viking://resources/guides"
        ["viking://resources/guides/x.md"] [c2Rec] = .ok []) ∧
    ∀ r ∈ ([] : Store), ¬(r.account_id = ctxRoot.account_id ∧
      (r.uri = "viking://resources/guides" ∨
        chPfx ("viking://resources/guides" ++ "/").data r.uri.data = true)) :=
  ⟨⟨by decide, by decide, by rfl⟩,
   c4_rm_deletes_subtree (fun _ => "h") ctxRoot "viking://resources/guides"
     ["viking://resources/guides/x.md"] [c2Rec] [] (by decide) (by decide)
     (by decide) (by decide) (by rfl)⟩

/-- The element selected by the fold inside `popMin` is a member of the
scanned list. -/
theorem popMin_fold_mem (xs : List (Rat × String)) (x : Rat × String) :
    (xs.foldl (fun b a => if qLt a b then a else b) x) ∈ x :: xs := by
  induction xs generalizing x with
  | nil => exact List.mem_singleton.mpr rfl
  | cons a as ih =>
      simp only [List.foldl_cons]
      have h := ih (if qLt a x then a else x)
      rcases List.mem_cons.mp h with h' | h'
      · rw [h']
        by_cases hq : qLt a x
        · simp [hq]
        · simp [hq]
      · simp [h']

/-- `heapq.heappop` pops a member and removes exactly one entry. -/
theorem popMin_spec {q : List (Rat × String)} {m : Rat × String}
    {rest : List (Rat × String)} (h : popMin q = some (m, rest)) :
    m ∈ q ∧ rest = q.erase m := by
  cases q with
  | nil => cases h
  | cons x xs =>
      unfold popMin at h
      simp only [Option.some.injEq, Prod.mk.injEq] at h
      obtain ⟨hm, hrest⟩ := h
      subst hm
      subst hrest
      exact ⟨popMin_fold_mem xs x, rfl⟩

/-- One `childStep` application: new queue entries carry the child's URI,
the visited list only grows, and the queue grows by at most one entry. -/
theorem childStep_facts (thr : Rat) (gte : Bool) (cs : Rat)
    (acc : List CollectedRec × List String × List (Rat × String)) (r : CRec) :
    (∀ e ∈ (childStep thr gte cs acc r).2.2, e ∈ acc.2.2 ∨ e.2 = r.uri) ∧
    (∀ v ∈ acc.2.1, v ∈ (childStep thr gte cs acc r).2.1) ∧
    (childStep thr gte cs acc r).2.2.length ≤ acc.2.2.length + 1 := by
  obtain ⟨col, vis, q⟩ := acc
  refine ⟨?_, ?_, ?_⟩
  · intro e he
    unfold childStep at he
    dsimp only at he
    repeat' split at he
    all_goals dsimp only at he
    all_goals try exact Or.inl he
    all_goals
      rcases List.mem_append.mp he with h | h
    all_goals try exact Or.inl h
    all_goals simp only [List.mem_singleton] at h
    all_goals exact Or.inr (by rw [h])
  · intro v hv
    unfold childStep
    dsimp only
    repeat' split
    all_goals dsimp only
    all_goals try exact hv
    all_goals exact List.mem_append_left _ hv
  · unfold childStep
    dsimp only
    repeat' split
    all_goals dsimp only
    all_goals simp

/-- The child fold of one expansion: queue entries come from the incoming
queue or from the searched children, the visited list only grows, and
the queue grows by at most the number of children. -/
theorem foldChild_facts (thr : Rat) (gte : Bool) (cs : Rat) (results : List CRec)
    (acc : List CollectedRec × List String × List (Rat × String)) :
    (∀ e ∈ (results.foldl (childStep thr gte cs) acc).2.2,
      e ∈ acc.2.2 ∨ ∃ r ∈ results, e.2 = r.uri) ∧
    (∀ v ∈ acc.2.1, v ∈ (results.foldl (childStep thr gte cs) acc).2.1) ∧
    (results.foldl (childStep thr gte cs) acc).2.2.length ≤
      acc.2.2.length + results.length := by
  induction results generalizing acc with
  | nil => exact ⟨fun e he => Or.inl he, fun v hv => hv, Nat.le_refl _⟩
  | cons r rs ih =>
      simp only [List.foldl_cons]
      obtain ⟨hq1, hv1, hl1⟩ := childStep_facts thr gte cs acc r
      obtain ⟨hq2, hv2, hl2⟩ := ih (childStep thr gte cs acc r)
      refine ⟨?_, ?_, ?_⟩
      · intro e he
        rcases hq2 e he with h | ⟨r', hr', he'⟩
        · rcases hq1 e h with h' | h'
          · exact Or.inl h'
          · exact Or.inr ⟨r, List.mem_cons_self _ _, h'⟩
        · exact Or.inr ⟨r', List.mem_cons_of_mem _ hr', he'⟩
      · intro v hv
        exact hv2 v (hv1 v hv)
      · calc (rs.foldl (childStep thr gte cs) (childStep thr gte cs acc r)).2.2.length
            ≤ (childStep thr gte cs acc r).2.2.length + rs.length := hl2
          _ ≤ acc.2.2.length + 1 + rs.length := by omega
          _ = acc.2.2.length + (r :: rs).length := by simp; omega

/-- Reachable URIs stay inside any universe that contains the roots and
is closed under the child search. -/
theorem rreach_subset {search : String → Nat → List CRec} {pfl : Nat}
    {roots : List String} {R : Finset String}
    (hroots : ∀ u ∈ roots, u ∈ R)
    (hclosed : ∀ u ∈ R, ∀ r ∈ search u pfl, r.uri ∈ R) :
    ∀ u, RReach search pfl roots u → u ∈ R := by
  intro u h
  induction h with
  | root hu => exact hroots _ hu
  | child hp hr ih => exact hclosed _ ih _ hr

/-- The best-first loop of `_recursive_search` exits through its own
stopping conditions (queue exhaustion or convergence) before fuel
bounded by the termination measure runs out, and it preserves the loop
invariant. -/
theorem rsLoop_run (search : String → Nat → List CRec) (limit : Nat) (thr : Rat) (gte : Bool)
    (roots : List String) (R : Finset String)
    (hreach : ∀ u, RReach search (preFilterLimit limit) roots u → u ∈ R) :
    ∀ fuel st, rsInv search (preFilterLimit limit) roots st →
      rsMeasure R (rsC search (preFilterLimit limit) R) st < fuel →
      ∃ st', rsLoop search limit thr gte fuel st = some st' ∧
        rsInv search (preFilterLimit limit) roots st' := by
  intro fuel
  induction fuel with
  | zero => intro st _ hm; exact absurd hm (Nat.not_lt_zero _)
  | succ n ih =>
      intro st hinv hm
      obtain ⟨hq, hnd, hre, hrv⟩ := hinv
      cases hpop : popMin st.dir_queue with
      | none =>
          refine ⟨st, ?_, ⟨hq, hnd, hre, hrv⟩⟩
          simp only [rsLoop, hpop]
      | some pr =>
          obtain ⟨⟨ns, cur⟩, rest⟩ := pr
          obtain ⟨hcur_mem, hrest⟩ := popMin_spec hpop
          have hrest_len : rest.length = st.dir_queue.length - 1 := by
            rw [hrest]; exact List.length_erase_of_mem hcur_mem
          have hrest_sub : ∀ e ∈ rest, e ∈ st.dir_queue := by
            intro e he; rw [hrest] at he; exact List.mem_of_mem_erase he
          have hq_pos : 1 ≤ st.dir_queue.length := List.length_pos_of_mem hcur_mem
          have hcur_reach : RReach search (preFilterLimit limit) roots cur := hq _ hcur_mem
          by_cases hv : cur ∈ st.visited
          · -- already visited: pop and continue
            have hm' : rsMeasure R (rsC search (preFilterLimit limit) R)
                { st with dir_queue := rest } < n := by
              unfold rsMeasure at hm ⊢
              dsimp only at hm ⊢
              omega
            obtain ⟨st', hrun, hinv'⟩ := ih { st with dir_queue := rest }
              ⟨fun e he => hq e (hrest_sub e he), hnd, hre, hrv⟩ hm'
            refine ⟨st', ?_, hinv'⟩
            simp only [rsLoop, hpop]
            rw [if_pos hv]
            exact hrun
          · -- expansion of `cur`
            have hcurR : cur ∈ R := hreach _ hcur_reach
            have hvisF : (st.visited ++ [cur]).toFinset =
                insert cur st.visited.toFinset := by
              rw [List.toFinset_append]
              rw [show ([cur] : List String).toFinset = {cur} by simp]
              rw [Finset.union_comm, ← Finset.insert_eq]
            have hA : cur ∉ st.visited.toFinset ∩ R := by
              rw [Finset.mem_inter]
              rintro ⟨h1, _⟩
              exact hv (List.mem_toFinset.mp h1)
            have hcard : ((st.visited ++ [cur]).toFinset ∩ R).card =
                (st.visited.toFinset ∩ R).card + 1 := by
              rw [hvisF, Finset.insert_inter_of_mem hcurR,
                Finset.card_insert_of_not_mem hA]
            have hkR : ((st.visited ++ [cur]).toFinset ∩ R).card ≤ R.card :=
              Finset.card_le_card Finset.inter_subset_right
            have hC : (search cur (preFilterLimit limit)).length ≤
                rsC search (preFilterLimit limit) R := by
              unfold rsC
              exact Finset.le_sup (f := fun u => (search u (preFilterLimit limit)).length) hcurR
            -- common data of the two expansion outcomes
            obtain ⟨hq2, hv2, hl2⟩ := foldChild_facts thr gte (-ns)
              (search cur (preFilterLimit limit))
              (st.collected, st.visited ++ [cur], rest)
            -- the invariant pieces shared by every post-expansion state
            have hexp_nd : (st.expanded ++ [cur]).Nodup := by
              rw [List.nodup_append]
              exact ⟨hnd, List.nodup_singleton cur,
                fun a ha hac => hv ((List.mem_singleton.mp hac) ▸ hrv a ha)⟩
            have hexp_re : ∀ u ∈ st.expanded ++ [cur],
                RReach search (preFilterLimit limit) roots u := by
              intro u hu
              rcases List.mem_append.mp hu with h | h
              · exact hre u h
              · exact (List.mem_singleton.mp h) ▸ hcur_reach
            -- measure arithmetic shared by both expansion outcomes
            rw [hcard] at hkR
            have hsub : R.card - ((st.visited.toFinset ∩ R).card + 1) + 1 =
                R.card - (st.visited.toFinset ∩ R).card := by omega
            have hkey : (R.card - ((st.visited.toFinset ∩ R).card + 1)) *
                  (rsC search (preFilterLimit limit) R + 1) +
                  (rsC search (preFilterLimit limit) R + 1) =
                (R.card - (st.visited.toFinset ∩ R).card) *
                  (rsC search (preFilterLimit limit) R + 1) := by
              rw [← hsub]
              ring
            cases hres : (search cur (preFilterLimit limit)).isEmpty with
            | true =>
              -- no children: mark visited, keep popping
              have hresnil : search cur (preFilterLimit limit) = [] :=
                List.isEmpty_iff.mp hres
              have hm' : rsMeasure R (rsC search (preFilterLimit limit) R)
                  { st with
                    dir_queue := rest,
                    visited := st.visited ++ [cur],
                    expanded := st.expanded ++ [cur] } < n := by
                unfold rsMeasure at hm ⊢
                dsimp only at hm ⊢
                rw [hcard]
                omega
              obtain ⟨st', hrun, hinv'⟩ := ih
                { st with
                  dir_queue := rest,
                  visited := st.visited ++ [cur],
                  expanded := st.expanded ++ [cur] }
                ⟨fun e he => hq e (hrest_sub e he), hexp_nd, hexp_re,
                 fun u hu => by
                   rcases List.mem_append.mp hu with h | h
                   · exact List.mem_append_left _ (hrv u h)
                   · exact List.mem_append_right _ h⟩ hm'
              refine ⟨st', ?_, hinv'⟩
              simp only [rsLoop, hpop]
              rw [if_neg hv]
              dsimp only
              rw [hres]
              exact hrun
            | false =>
              -- children found: fold, then converge or continue
              have hq_new : ∀ e ∈ ((search cur (preFilterLimit limit)).foldl
                  (childStep thr gte (-ns))
                  (st.collected, st.visited ++ [cur], rest)).2.2,
                  RReach search (preFilterLimit limit) roots e.2 := by
                intro e he
                rcases hq2 e he with h | ⟨r, hr, he'⟩
                · exact hq e (hrest_sub e h)
                · exact he' ▸ RReach.child hcur_reach hr
              have hvsub_new : ∀ u ∈ st.expanded ++ [cur],
                  u ∈ ((search cur (preFilterLimit limit)).foldl
                    (childStep thr gte (-ns))
                    (st.collected, st.visited ++ [cur], rest)).2.1 := by
                intro u hu
                rcases List.mem_append.mp hu with h | h
                · exact hv2 u (List.mem_append_left _ (hrv u h))
                · exact hv2 u (List.mem_append_right _ h)
              have hk_new : ((st.visited ++ [cur]).toFinset ∩ R).card ≤
                  ((((search cur (preFilterLimit limit)).foldl
                    (childStep thr gte (-ns))
                    (st.collected, st.visited ++ [cur], rest)).2.1.toFinset) ∩ R).card := by
                apply Finset.card_le_card
                apply Finset.inter_subset_inter _ (Finset.Subset.refl R)
                intro x hx
                exact List.mem_toFinset.mpr (hv2 x (List.mem_toFinset.mp hx))
              have hm_new : (R.card - ((((search cur (preFilterLimit limit)).foldl
                    (childStep thr gte (-ns))
                    (st.collected, st.visited ++ [cur], rest)).2.1.toFinset) ∩ R).card) *
                    (rsC search (preFilterLimit limit) R + 1) +
                  ((search cur (preFilterLimit limit)).foldl (childStep thr gte (-ns))
                    (st.collected, st.visited ++ [cur], rest)).2.2.length < n := by
                rw [hcard] at hk_new
                have hfirst : (R.card - ((((search cur (preFilterLimit limit)).foldl
                      (childStep thr gte (-ns))
                      (st.collected, st.visited ++ [cur], rest)).2.1.toFinset) ∩ R).card) *
                      (rsC search (preFilterLimit limit) R + 1) ≤
                    (R.card - ((st.visited.toFinset ∩ R).card + 1)) *
                      (rsC search (preFilterLimit limit) R + 1) :=
                  Nat.mul_le_mul_right _ (by omega)
                unfold rsMeasure at hm
                dsimp only at hl2
                omega
              set out := (search cur (preFilterLimit limit)).foldl (childStep thr gte (-ns))
                (st.collected, st.visited ++ [cur], rest) with hout
              have hinv_common : ∀ (pt : Finset String) (ro : Nat),
                  rsInv search (preFilterLimit limit) roots
                    { collected := out.1, dir_queue := out.2.2, visited := out.2.1,
                      prev_topk := pt, rounds := ro, expanded := st.expanded ++ [cur] } :=
                fun pt ro => ⟨hq_new, hexp_nd, hexp_re, hvsub_new⟩
              have hm_common : ∀ (pt : Finset String) (ro : Nat),
                  rsMeasure R (rsC search (preFilterLimit limit) R)
                    { collected := out.1, dir_queue := out.2.2, visited := out.2.1,
                      prev_topk := pt, rounds := ro, expanded := st.expanded ++ [cur] } < n :=
                fun pt ro => hm_new
              by_cases hconv : topkUris out.1 limit = st.prev_topk ∧
                  limit ≤ (topkUris out.1 limit).card
              · by_cases hrounds : MAX_CONVERGENCE_ROUNDS ≤ st.rounds + 1
                · refine ⟨_, ?_, hinv_common st.prev_topk (st.rounds + 1)⟩
                  simp only [rsLoop, hpop]
                  rw [if_neg hv]
                  dsimp only
                  rw [hres, ← hout]
                  rw [if_pos hconv]
                  rw [if_pos hrounds]
                  simp only [Bool.false_eq_true, if_false]
                · obtain ⟨st', hrun, hinv'⟩ := ih _
                    (hinv_common st.prev_topk (st.rounds + 1))
                    (hm_common st.prev_topk (st.rounds + 1))
                  refine ⟨st', ?_, hinv'⟩
                  simp only [rsLoop, hpop]
                  rw [if_neg hv]
                  dsimp only
                  rw [hres, ← hout]
                  rw [if_pos hconv]
                  rw [if_neg hrounds]
                  simp only [Bool.false_eq_true, if_false]
                  exact hrun
              · obtain ⟨st', hrun, hinv'⟩ := ih _
                  (hinv_common (topkUris out.1 limit) 0)
                  (hm_common (topkUris out.1 limit) 0)
                refine ⟨st', ?_, hinv'⟩
                simp only [rsLoop, hpop]
                rw [if_neg hv]
                dsimp only
                rw [hres, ← hout]
                rw [if_neg hconv]
                simp only [Bool.false_eq_true, if_false]
                exact hrun

/-- C7: for every starting-point set and every scoring of the children
(the child search and its attached scores are arbitrary), the best-first
loop of `_recursive_search` terminates, and it performs at most `K`
child-expansion iterations, where `K` is the number of distinct URIs
reachable from the starting set: each popped URI is expanded at most
once because it is added to the visited set.  `R` is any finite URI
universe containing the starting URIs and closed under the child search
(e.g. the URIs of the finite vector store). -/
theorem c7_retriever_terminates (search : String → Nat → List CRec) (limit : Nat)
    (thr : Rat) (gte : Bool) (starting_points : List (String × Rat)) (R : Finset String)
    (hroots : ∀ p ∈ starting_points, p.1 ∈ R)
    (hclosed : ∀ u ∈ R, ∀ r ∈ search u (preFilterLimit limit), r.uri ∈ R) :
    ∃ fuel st, rsLoop search limit thr gte fuel (initState starting_points) = some st ∧
      st.expanded.length ≤
        Set.ncard {u | RReach search (preFilterLimit limit)
          (starting_points.map Prod.fst) u} := by
  have hreach : ∀ u, RReach search (preFilterLimit limit)
      (starting_points.map Prod.fst) u → u ∈ R :=
    rreach_subset
      (fun u hu => by
        obtain ⟨p, hp, hpe⟩ := List.mem_map.mp hu
        exact hpe ▸ hroots p hp)
      hclosed
  have hinv0 : rsInv search (preFilterLimit limit) (starting_points.map Prod.fst)
      (initState starting_points) := by
    refine ⟨?_, List.nodup_nil, ?_, ?_⟩
    · intro e he
      unfold initState at he
      dsimp only at he
      obtain ⟨p, hp, hpe⟩ := List.mem_map.mp he
      have he2 : e.2 = p.1 := by rw [← hpe]
      exact he2 ▸ RReach.root (List.mem_map.mpr ⟨p, hp, rfl⟩)
    · intro u hu; cases hu
    · intro u hu; cases hu
  obtain ⟨st, hrun, hinv⟩ := rsLoop_run search limit thr gte
    (starting_points.map Prod.fst) R hreach
    (rsMeasure R (rsC search (preFilterLimit limit) R) (initState starting_points) + 1)
    (initState starting_points) hinv0 (Nat.lt_succ_self _)
  obtain ⟨_, hnd, hre, _⟩ := hinv
  refine ⟨_, st, hrun, ?_⟩
  rw [show st.expanded.length = st.expanded.toFinset.card from
    (List.toFinset_card_of_nodup hnd).symm]
  have hsubset : (↑st.expanded.toFinset : Set String) ⊆
      {u | RReach search (preFilterLimit limit) (starting_points.map Prod.fst) u} := by
    intro u hu
    exact hre u (List.mem_toFinset.mp hu)
  have hfin : {u | RReach search (preFilterLimit limit)
      (starting_points.map Prod.fst) u}.Finite :=
    Set.Finite.subset R.finite_toSet (fun u hu => hreach u hu)
  calc st.expanded.toFinset.card
      = (↑st.expanded.toFinset : Set String).ncard := (Set.ncard_coe_Finset _).symm
    _ ≤ Set.ncard {u | RReach search (preFilterLimit limit)
        (starting_points.map Prod.fst) u} := Set.ncard_le_ncard hsubset hfin

/-- C7 witness: the theorem applied to a childless search over the
singleton universe `viking://resources`. -/
theorem c7_retriever_terminates_witness :
    ((∀ p ∈ [(("viking://resources" : String), (0 : Rat))],
        p.1 ∈ ({"viking://resources"} : Finset String)) ∧
     (∀ u ∈ ({"viking://resources"} : Finset String),
        ∀ r ∈ ((fun (_ : String) (_ : Nat) => ([] : List CRec)) u (preFilterLimit 5)),
          r.uri ∈ ({"viking://resources"} : Finset String))) ∧
    ∃ fuel st,
      rsLoop (fun _ _ => []) 5 0 false fuel
        (initState [("viking://resources", 0)]) = some st ∧
      st.expanded.length ≤
        Set.ncard {u | RReach (fun _ _ => []) (preFilterLimit 5)
          ([(("viking://resources" : String), (0 : Rat))].map Prod.fst) u} :=
  ⟨⟨by decide, by simp⟩,
   c7_retriever_terminates (fun _ _ => []) 5 0 false [("viking://resources", 0)]
     {"viking://resources"} (by decide) (by simp)⟩

end OpenViking
